import Mathlib

/-!
Shallow embedding of the bounded incremental index builder
(`scripts/index_build.py`) and the index query engine
(`scripts/index_query.py`) of the safe-mass-index-core skill candidate,
together with theorems settling the specification claims about them.

JSON values are modelled by a mutual inductive (`Json`/`JList`/`JObj`);
Python dicts keyed by path are modelled as association lists with
first-match lookup and replace-or-append insertion, which is faithful
because every dict the scripts build has unique keys.
-/

namespace SafeMassIndex

mutual
/-- A JSON value as produced by `json.loads` (numbers restricted to the
integers that actually occur in the index artifacts). -/
inductive Json where
  | null
  | bool (b : Bool)
  | num (n : Int)
  | str (s : String)
  | arr (xs : JList)
  | obj (kvs : JObj)
deriving DecidableEq

/-- A JSON array body. -/
inductive JList where
  | nil
  | cons (hd : Json) (tl : JList)
deriving DecidableEq

/-- A JSON object body (ordered key/value pairs, as in a Python dict). -/
inductive JObj where
  | nil
  | cons (k : String) (v : Json) (tl : JObj)
deriving DecidableEq
end

/-- Convert a JSON array body to a Lean list. -/
def JList.toList : JList → List Json
  | .nil => []
  | .cons hd tl => hd :: tl.toList

/-- Convert a Lean list to a JSON array body. -/
def JList.ofList : List Json → JList
  | [] => .nil
  | hd :: tl => .cons hd (JList.ofList tl)

/-- Convert a JSON object body to a Lean list of pairs. -/
def JObj.toList : JObj → List (String × Json)
  | .nil => []
  | .cons k v tl => (k, v) :: tl.toList

/-- Convert a Lean list of pairs to a JSON object body. -/
def JObj.ofList : List (String × Json) → JObj
  | [] => .nil
  | (k, v) :: tl => .cons k v (JObj.ofList tl)

/-- Build a JSON array from a Lean list. -/
def jarr (xs : List Json) : Json := .arr (JList.ofList xs)

/-- Build a JSON object from a Lean list of pairs. -/
def jobj (kvs : List (String × Json)) : Json := .obj (JObj.ofList kvs)

/-- Left-biased choice on options (strict `orElse`). -/
def optOr {α : Type} : Option α → Option α → Option α
  | some a, _ => some a
  | none, b => b

/-- `isinstance(value, dict)`. -/
def Json.isObj : Json → Bool
  | .obj _ => true
  | _ => false

/-- `isinstance(value, list) and len(value) == 4`. -/
def Json.isLen4Arr : Json → Bool
  | .arr (.cons _ (.cons _ (.cons _ (.cons _ .nil)))) => true
  | _ => false

/-- First-match lookup in an association list (Python `dict.get` on a
dict with unique keys). -/
def pyGet {α : Type} : List (String × α) → String → Option α
  | [], _ => none
  | (k, v) :: rest, key => if key = k then some v else pyGet rest key

/-- Python `d[k] = v`: replace the value at an existing key in place or
append a fresh pair at the end. -/
def pyInsert {α : Type} : List (String × α) → String → α → List (String × α)
  | [], k, v => [(k, v)]
  | (a, w) :: rest, k, v =>
    if a = k then (k, v) :: rest else (a, w) :: pyInsert rest k v

/-- `value.get(field)` on a JSON object; `none` when the value is not an
object or lacks the field. -/
def Json.field : Json → String → Option Json
  | .obj kvs, key => pyGet kvs.toList key
  | _, _ => none

/-- Python `str(...)` on the scalar JSON values that actually occur in
index records; structured values never occur where this is applied. -/
def jsonAsStr : Json → String
  | .str s => s
  | .num n => toString n
  | .bool true => "True"
  | .bool false => "False"
  | .null => "None"
  | _ => ""

/-- Python `bool(...)` truthiness of a JSON value. -/
def pyTruthy : Json → Bool
  | .null => false
  | .bool b => b
  | .num n => n ≠ 0
  | .str s => s ≠ ""
  | .arr xs => xs.toList ≠ []
  | .obj kvs => kvs.toList ≠ []

/-- Strict lexicographic comparison of character lists by code point,
the order Python `sorted` uses on strings. -/
def charsLt : List Char → List Char → Bool
  | [], [] => false
  | [], _ :: _ => true
  | _ :: _, [] => false
  | a :: as, b :: bs =>
    if a.toNat < b.toNat then true
    else if b.toNat < a.toNat then false
    else charsLt as bs

/-- Strict string comparison by code point. -/
def strLt (a b : String) : Bool := charsLt a.data b.data

/-- Non-strict string comparison by code point. -/
def strLe (a b : String) : Bool := !(strLt b a)

/-- Sort a list of strings the way Python `sorted` does. -/
def sortStrings (l : List String) : List String :=
  List.insertionSort (fun a b => strLe a b = true) l

/-- Decidable equality of `Except` results. -/
instance {ε α : Type} [DecidableEq ε] [DecidableEq α] : DecidableEq (Except ε α) := fun a b =>
  match a, b with
  | .error e, .error f =>
    if h : e = f then isTrue (by rw [h]) else isFalse (fun hh => h (by injection hh))
  | .ok x, .ok y =>
    if h : x = y then isTrue (by rw [h]) else isFalse (fun hh => h (by injection hh))
  | .error _, .ok _ => isFalse (fun hh => Except.noConfusion hh)
  | .ok _, .error _ => isFalse (fun hh => Except.noConfusion hh)

/-- ASCII `str.lower()` (kernel-computable; the extension tables and
filters only ever meet ASCII). -/
def strToLower (s : String) : String := String.mk (s.data.map Char.toLower)

/-- ASCII whitespace as stripped by Python `str.strip()`. -/
def isPySpace (c : Char) : Bool :=
  c = ' ' || c = '\t' || c = '\n' || c = '\r' || c = '\x0b' || c = '\x0c'

/-- Python `str.strip()` restricted to ASCII whitespace. -/
def strTrim (s : String) : String :=
  String.mk (((s.data.dropWhile isPySpace).reverse.dropWhile isPySpace).reverse)

/-- Decimal digit-string value, `none` on the empty string or any
non-digit character. -/
def digitsToNat (cs : List Char) : Option Nat :=
  if cs = [] then none
  else
    cs.foldl
      (fun acc c =>
        match acc with
        | none => none
        | some n => if c.isDigit then some (n * 10 + (c.toNat - 48)) else none)
      (some 0)

/-- Python `int(...)` on a string (sign plus decimal digits; other
forms raise `ValueError`, modelled as `none`). -/
def pyStrToInt (s : String) : Option Int :=
  match s.data with
  | '-' :: rest => (digitsToNat rest).map (fun n => -(n : Int))
  | '+' :: rest => (digitsToNat rest).map (fun n => (n : Int))
  | cs => (digitsToNat cs).map (fun n => (n : Int))

/-- Python `str.split("/")` on the character list of a path. -/
def splitSlash : List Char → List (List Char)
  | [] => [[]]
  | c :: rest =>
    if c = '/' then [] :: splitSlash rest
    else
      match splitSlash rest with
      | [] => [[c]]
      | hd :: tl => (c :: hd) :: tl

/-- Whether the first character list is a prefix of the second. -/
def listIsPrefix : List Char → List Char → Bool
  | [], _ => true
  | _ :: _, [] => false
  | a :: as, b :: bs => a = b && listIsPrefix as bs

/-- Whether the first character list occurs contiguously in the second
(Python `needle in hay`). -/
def listIsInfix (needle : List Char) : List Char → Bool
  | [] => needle.isEmpty
  | b :: bs => listIsPrefix needle (b :: bs) || listIsInfix needle bs

/-- Python `int(...)` applied to a JSON value, `none` when it raises
`TypeError`/`ValueError`. -/
def pyToInt : Json → Option Int
  | .num n => some n
  | .bool true => some 1
  | .bool false => some 0
  | .str s => pyStrToInt s
  | _ => none

/-- The `TEXT_EXTS` table of `index_build.py`. -/
def TEXT_EXTS : List String :=
  [".c", ".cc", ".cfg", ".cpp", ".cs", ".css", ".csv", ".go", ".h", ".hpp",
   ".html", ".ini", ".java", ".js", ".json", ".jsonl", ".kt", ".m", ".md",
   ".php", ".py", ".rb", ".rs", ".sh", ".sql", ".swift", ".toml", ".ts",
   ".tsx", ".txt", ".xml", ".yaml", ".yml"]

/-- The `BINARY_EXTS` table of `index_build.py`. -/
def BINARY_EXTS : List String :=
  [".7z", ".a", ".bin", ".bmp", ".class", ".dll", ".dylib", ".exe", ".gif",
   ".gz", ".ico", ".jar", ".jpeg", ".jpg", ".lib", ".mp3", ".mp4", ".o",
   ".obj", ".pdf", ".png", ".pyc", ".so", ".svgz", ".tar", ".ttf", ".wav",
   ".webm", ".webp", ".woff", ".woff2", ".zip"]

/-- The `LANG_BY_EXT` table of `index_build.py`. -/
def LANG_BY_EXT : List (String × String) :=
  [(".c", "c"), (".cc", "cpp"), (".cpp", "cpp"), (".cs", "csharp"),
   (".css", "css"), (".go", "go"), (".h", "c"), (".hpp", "cpp"),
   (".html", "html"), (".java", "java"), (".js", "javascript"),
   (".json", "json"), (".kt", "kotlin"), (".md", "markdown"),
   (".php", "php"), (".py", "python"), (".rb", "ruby"), (".rs", "rust"),
   (".sh", "shell"), (".sql", "sql"), (".swift", "swift"),
   (".toml", "toml"), (".ts", "typescript"), (".tsx", "typescript"),
   (".txt", "text"), (".xml", "xml"), (".yaml", "yaml"), (".yml", "yaml")]

/-- `guess_language` of `index_build.py`. -/
def guess_language (ext : String) : String :=
  match pyGet LANG_BY_EXT ext with
  | some lang => lang
  | none => "unknown"

/-- `pathlib.PurePath.suffix` of a final path component: the part from
the last dot when that dot is neither the first nor the last character. -/
def pySuffixOfName (name : String) : String :=
  let cs := name.data
  match cs.reverse.findIdx? (fun ch => ch = '.') with
  | none => ""
  | some rj =>
    let i := cs.length - 1 - rj
    if 0 < i ∧ i < cs.length - 1 then String.mk (cs.drop i) else ""

/-- `Path(rel_path).suffix` for a forward-slash relative path. -/
def pathSuffix (rel_path : String) : String :=
  pySuffixOfName (String.mk ((splitSlash rel_path.data).getLastD []))

/-- `top_level_for` of `index_build.py`. -/
def top_level_for (rel_path : String) : String :=
  let parts := splitSlash rel_path.data
  if parts.length = 1 then "__root__" else String.mk (parts.headD [])

/-- Strip leading and trailing `.` and `_` characters (Python
`str.strip("._")`). -/
def stripDotUnderscore (cs : List Char) : List Char :=
  (((cs.dropWhile (fun ch => ch = '.' || ch = '_')).reverse.dropWhile
      (fun ch => ch = '.' || ch = '_')).reverse)

/-- `sanitize_shard_name` of `index_build.py`. -/
def sanitize_shard_name (top_level : String) : String :=
  let mapped := top_level.data.map
    (fun ch => if ch.isAlphanum || ch = '-' || ch = '_' || ch = '.' then ch else '_')
  let safe := String.mk (stripDotUnderscore mapped)
  let safe := if safe = "" then "root" else safe
  safe ++ ".jsonl"

/-- A sanitized `StateEntry`: the `fingerprint` and `record` JSON values
kept by `load_state` for one path. -/
structure Entry where
  fingerprint : Json
  record : Json
deriving DecidableEq

/-- The in-memory state map `path -> {fingerprint, record}`. -/
abbrev AList := List (String × Entry)

/-- What reading and JSON-parsing `state.json` can yield: no file at the
path, an `OSError`/`JSONDecodeError`, or a parsed JSON payload. -/
inductive StateFileRead where
  | missing
  | unreadable
  | parsed (payload : Json)
deriving DecidableEq

/-- Result triple of `load_state`: entries, fallback flag, reason. -/
structure LoadOut where
  entries : AList
  fallback : Bool
  reason : String
deriving DecidableEq

/-- One iteration of the sanitizing loop of `load_state`: keep an entry
only when its value carries a 4-element `fingerprint` list and an object
`record`. -/
def sanitizeStep (acc : AList) (kv : String × Json) : AList :=
  match kv.2.field "fingerprint", kv.2.field "record" with
  | some fp, some rec =>
    if fp.isLen4Arr && rec.isObj then pyInsert acc kv.1 ⟨fp, rec⟩ else acc
  | _, _ => acc

/-- The sanitizing loop of `load_state`. -/
def sanitize_entries (kvs : List (String × Json)) : AList :=
  kvs.foldl sanitizeStep []

/-- Python `value == 1` on the result of `payload.get(...)`: Python's
`==` identifies `True` with `1`, so both the number 1 and boolean true
pass, while a missing key (`None`) and every other value fail. -/
def pyEqOne : Option Json → Bool
  | some (.num n) => n = 1
  | some (.bool b) => b
  | _ => false

/-- `load_state` of `index_build.py` (`SCHEMA_VERSION = 1`); the schema
check `payload.get("schema_version") != SCHEMA_VERSION` uses Python
equality, under which `True == 1`. -/
def load_state : StateFileRead → LoadOut
  | .missing => ⟨[], false, ""⟩
  | .unreadable => ⟨[], true, "corrupt_state"⟩
  | .parsed payload =>
    match payload with
    | .obj kvs =>
      if pyEqOne (pyGet kvs.toList "schema_version") = false then
        ⟨[], true, "state_schema_mismatch"⟩
      else
        match (pyGet kvs.toList "entries").getD (jobj []) with
        | .obj ekvs => ⟨sanitize_entries ekvs.toList, false, ""⟩
        | _ => ⟨[], true, "invalid_state_entries"⟩
    | _ => ⟨[], true, "invalid_state_shape"⟩

/-- The `RunCounters` dataclass of `index_build.py`. -/
structure Counters where
  files_seen : Nat := 0
  files_indexed : Nat := 0
  files_reused : Nat := 0
  files_updated : Nat := 0
  files_removed : Nat := 0
  files_unreadable : Nat := 0
  bytes_read : Nat := 0
deriving DecidableEq

/-- Build mode (`--mode incremental | full`). -/
inductive Mode where
  | incremental
  | full
deriving DecidableEq

/-- Build configuration after argument parsing: mode, the three budgets,
and the monotonic-clock reading taken at loop entry. -/
structure BuildCfg where
  mode : Mode
  max_files_per_run : Int
  max_seconds : Int
  max_read_bytes : Int
  start_mono : Int
deriving DecidableEq

/-- `deadline = start_mono + args.max_seconds`. -/
def BuildCfg.deadline (cfg : BuildCfg) : Int := cfg.start_mono + cfg.max_seconds

/-- The result of `os.stat` on a candidate file. -/
structure FileStat where
  size : Int
  mtime_ns : Int
  dev : Int
  ino : Int
deriving DecidableEq

/-- One file yielded by the traversal, together with everything the loop
body observes about it: the monotonic clock at its budget check, the
stat result (`none` models `OSError`), whether opening it for the probe
raises `OSError`, and its byte content. -/
structure Candidate where
  rel_path : String
  mono_now : Int
  stat : Option FileStat
  read_err : Bool
  content : List Nat
deriving DecidableEq

/-- The fingerprint list `[size, mtime_ns, dev, ino]` as built at line
398 of `index_build.py`. -/
def fpJson (st : FileStat) : Json :=
  jarr [.num st.size, .num st.mtime_ns, .num st.dev, .num st.ino]

/-- `is_probably_text` of `index_build.py`: returns
`(text_like, exhausted_budget, counters)`. -/
def is_probably_text (c : Candidate) (cnt : Counters) (max_read_bytes : Int) :
    Bool × Bool × Counters :=
  let remaining := max_read_bytes - (cnt.bytes_read : Int)
  if remaining ≤ 0 then (false, true, cnt)
  else
    let probe := min 1024 remaining
    if c.read_err then
      (false, false, { cnt with files_unreadable := cnt.files_unreadable + 1 })
    else
      let chunk := c.content.take probe.toNat
      let cnt := { cnt with bytes_read := cnt.bytes_read + chunk.length }
      if chunk.isEmpty then (true, false, cnt)
      else if chunk.contains 0 then (false, false, cnt)
      else (true, false, cnt)

/-- The reuse test of lines 401-403: in incremental mode, a prior entry
with identical fingerprint whose record is a dict yields that record.
The fingerprint comparison is modelled as structural JSON equality; the
theorems below only invoke reuse on fingerprints produced by `fpJson`
(lists of four numbers), where structural and Python `==` agree. -/
def reuseEntry (mode : Mode) (prev : AList) (rel : String) (fp : Json) : Option Json :=
  if mode = Mode.incremental then
    match pyGet prev rel with
    | some e => if e.fingerprint = fp ∧ e.record.isObj then some e.record else none
    | none => none
  else none

/-- The fresh record dict of lines 422-430. -/
def mkRecord (rel_path : String) (st : FileStat) (ext lang : String) (text_like : Bool) : Json :=
  jobj [("path", .str rel_path), ("size", .num st.size), ("mtime_ns", .num st.mtime_ns),
        ("ext", .str ext), ("lang", .str lang), ("text_like", .bool text_like),
        ("top_level", .str (top_level_for rel_path))]

/-- Classification of lines 411-420: extension tables first, content
probe otherwise; `none` signals the probe-byte budget was exhausted. -/
def classify (cfg : BuildCfg) (c : Candidate) (cnt : Counters) (ext : String) :
    Option (Bool × Counters) :=
  if TEXT_EXTS.contains ext then some (true, cnt)
  else if BINARY_EXTS.contains ext then some (false, cnt)
  else
    let r := is_probably_text c cnt cfg.max_read_bytes
    if r.2.1 then none else some (r.1, r.2.2)

/-- The recompute path of the loop body (extension, language,
classification, record, indexed/updated counter, map insert); `none`
signals the probe-byte budget stop. -/
def computeStep (cfg : BuildCfg) (inPrev : Bool) (c : Candidate) (st : FileStat)
    (cnt : Counters) (acc : AList) : Option (Counters × AList) :=
  let ext := strToLower (pathSuffix c.rel_path)
  let lang := guess_language ext
  match classify cfg c cnt ext with
  | none => none
  | some (text_like, cnt) =>
    let record := mkRecord c.rel_path st ext lang text_like
    let cnt :=
      if inPrev then { cnt with files_updated := cnt.files_updated + 1 }
      else { cnt with files_indexed := cnt.files_indexed + 1 }
    some (cnt, pyInsert acc c.rel_path ⟨fpJson st, record⟩)

/-- The loop state when the scan of lines 379-437 ends. -/
structure LoopOut where
  counters : Counters
  entries : AList
  stopped : Bool
  stop_reason : String
deriving DecidableEq

/-- The candidate scan of lines 379-437: budget checks before each file,
stat, reuse-or-recompute, and the three early stops. -/
def runLoop (cfg : BuildCfg) (prev : AList) :
    List Candidate → Counters → AList → LoopOut
  | [], cnt, acc => ⟨cnt, acc, false, "completed"⟩
  | c :: rest, cnt, acc =>
    if (cnt.files_seen : Int) ≥ cfg.max_files_per_run then
      ⟨cnt, acc, true, "max_files_per_run_reached"⟩
    else if c.mono_now ≥ cfg.deadline then
      ⟨cnt, acc, true, "max_seconds_reached"⟩
    else
      let cnt := { cnt with files_seen := cnt.files_seen + 1 }
      match c.stat with
      | none =>
        runLoop cfg prev rest { cnt with files_unreadable := cnt.files_unreadable + 1 } acc
      | some st =>
        match reuseEntry cfg.mode prev c.rel_path (fpJson st) with
        | some record =>
          runLoop cfg prev rest { cnt with files_reused := cnt.files_reused + 1 }
            (pyInsert acc c.rel_path ⟨fpJson st, record⟩)
        | none =>
          match computeStep cfg (pyGet prev c.rel_path).isSome c st cnt acc with
          | none => ⟨cnt, acc, true, "max_read_bytes_reached"⟩
          | some (cnt, acc) => runLoop cfg prev rest cnt acc

/-- `dict(previous_entries)` followed by `.update(new_entries)`. -/
def pyUpdate (prev new : AList) : AList :=
  new.foldl (fun m kv => pyInsert m kv.1 kv.2) prev

/-- The distinct prior paths absent from the new entries
(`set(previous_entries.keys()) - set(new_entries.keys())`). -/
def removedKeys (prev new : AList) : List String :=
  ((prev.map Prod.fst).dedup).filter (fun k => (pyGet new k).isNone)

/-- `sorted(final_entries.keys())`. -/
def sortedKeys (m : AList) : List String :=
  sortStrings ((m.map Prod.fst).dedup)

/-- The record list of lines 447-451: records of the final entries in
ascending path order, keeping only dict records. -/
def recordsOf (m : AList) : List Json :=
  (sortedKeys m).filterMap (fun p =>
    match pyGet m p with
    | some e => if e.record.isObj then some e.record else none
    | none => none)

/-- Everything `main` computes for one run after argument validation:
the loaded prior entries, the per-run entries, the merged final entries,
the counters, status, stop reason, fallback fields, and the emitted
record sequence. -/
structure BuildResult where
  previous_entries : AList
  new_entries : AList
  final_entries : AList
  counters : Counters
  stoppedEarly : Bool
  stop_reason : String
  status : String
  fallback_rebuild : Bool
  fallback_reason : String
  records : List Json
deriving DecidableEq

/-- Lines 364-451 and 549 of `main`: load prior state only in
incremental mode, scan, merge or replace, account removals, sort. -/
def runBuild (cfg : BuildCfg) (state_file : StateFileRead)
    (candidates : List Candidate) : BuildResult :=
  let ld := if cfg.mode = Mode.incremental then load_state state_file else ⟨[], false, ""⟩
  let lo := runLoop cfg ld.entries candidates {} []
  let final_entries := if lo.stopped then pyUpdate ld.entries lo.entries else lo.entries
  let removed := if lo.stopped then 0 else (removedKeys ld.entries lo.entries).length
  { previous_entries := ld.entries
    new_entries := lo.entries
    final_entries := final_entries
    counters := { lo.counters with files_removed := removed }
    stoppedEarly := lo.stopped
    stop_reason := lo.stop_reason
    status := if lo.stopped then "partial" else "ok"
    fallback_rebuild := ld.fallback
    fallback_reason := ld.reason
    records := recordsOf final_entries }

/-- Lines 341-349 of `main`: budget validation before any filesystem
access, then the run; `Except.error 2` models the early non-zero exit
with no artifact written. -/
def indexBuildMain (cfg : BuildCfg) (state_file : StateFileRead)
    (candidates : List Candidate) : Except Nat BuildResult :=
  if cfg.max_files_per_run < 1 then .error 2
  else if cfg.max_seconds < 1 then .error 2
  else if cfg.max_read_bytes < 0 then .error 2
  else .ok (runBuild cfg state_file candidates)

/-- Sort key used when writing a shard segment
(`sorted(grouped[top_level], key=lambda item: item["path"])`). -/
def pathKey (record : Json) : String :=
  jsonAsStr ((record.field "path").getD (Json.str ""))

/-- Sort a record list by its `path` field. -/
def sortByPathField (records : List Json) : List Json :=
  List.insertionSort (fun a b => strLe (pathKey a) (pathKey b) = true) records

/-- Lines 475-478: group the sorted record list by `top_level`. -/
def groupedByTopLevel (records : List Json) : List (String × List Json) :=
  records.foldl
    (fun acc record =>
      let tl := jsonAsStr ((record.field "top_level").getD (Json.str "__root__"))
      pyInsert acc tl ((pyGet acc tl).getD [] ++ [record]))
    []

/-- The shard writing loop of lines 480-493 as a transformation of the
`shards/` directory contents (file name to parsed records); the
selective-rewrite test consults the evolving directory, so an earlier
iteration's write makes `shard_path.is_file()` true for later ones. -/
def writeShards (cfg : BuildCfg) (fallback_rebuild : Bool) (changed : List String)
    (grouped : List (String × List Json)) (disk : List (String × List Json)) :
    List (String × List Json) :=
  (sortStrings ((grouped.map Prod.fst).dedup)).foldl
    (fun disk tl =>
      let shard_file := sanitize_shard_name tl
      let should_write :=
        cfg.mode = Mode.full ∨ fallback_rebuild = true ∨ tl ∈ changed ∨
          (pyGet disk shard_file).isNone
      if should_write then
        pyInsert disk shard_file (sortByPathField ((pyGet grouped tl).getD []))
      else disk)
    disk

/-- Query output format. -/
inductive OutFormat where
  | table
  | json
deriving DecidableEq

/-- Parsed CLI arguments of `index_query.py`. -/
structure QueryArgs where
  path_contains : String := ""
  ext : String := ""
  lang : String := ""
  min_size : Int := -1
  max_size : Int := -1
  changed_since_epoch : Int := -1
  scope : String := "all"
  limit : Int := 200
  format : OutFormat := .table
deriving DecidableEq

/-- `normalize_ext` of `index_query.py`. -/
def normalize_ext (value : String) : String :=
  let value := strToLower (strTrim value)
  if value = "" then ""
  else if listIsPrefix ['.'] value.data then value
  else "." ++ value

/-- Python `needle in hay` on strings. -/
def strContains (hay needle : String) : Bool :=
  listIsInfix needle.data hay.data

/-- `record_paths` of `index_query.py`, returning index-relative record
file paths. -/
def record_paths (manifest : Json) (scope : String) : List String :=
  let storage := (manifest.field "storage").getD (jobj [])
  let sharded := pyTruthy ((storage.field "sharded").getD (Json.bool false))
  if sharded then
    match (storage.field "shard_map").getD (jobj []) with
    | .obj kvs =>
      let shard_map := kvs.toList
      if scope ≠ "all" then
        match pyGet shard_map scope with
        | some (.str shard_rel) => [shard_rel]
        | _ => []
      else
        (sortStrings ((shard_map.map Prod.fst).dedup)).filterMap (fun tl =>
          match pyGet shard_map tl with
          | some (.str shard_rel) => some shard_rel
          | _ => none)
    | _ => []
  else
    match storage.field "files_path" with
    | some (.str files_rel) => if files_rel ≠ "" then [files_rel] else ["files.jsonl"]
    | _ => ["files.jsonl"]

/-- `matches_filters` of `index_query.py`. -/
def matches_filters (record : Json) (args : QueryArgs) (ext_filter scope : String) : Bool :=
  let path := jsonAsStr ((record.field "path").getD (Json.str ""))
  let ext := strToLower (jsonAsStr ((record.field "ext").getD (Json.str "")))
  let lang := strToLower (jsonAsStr ((record.field "lang").getD (Json.str "")))
  let top_level := jsonAsStr ((record.field "top_level").getD (Json.str ""))
  match pyToInt ((record.field "size").getD (Json.num (-1))),
        pyToInt ((record.field "mtime_ns").getD (Json.num (-1))) with
  | some size, some mtime_ns =>
    if args.path_contains ≠ "" && !(strContains (strToLower path) (strToLower args.path_contains)) then false
    else if ext_filter ≠ "" && ext ≠ ext_filter then false
    else if args.lang ≠ "" && lang ≠ strToLower (strTrim args.lang) then false
    else if args.min_size ≥ 0 && size < args.min_size then false
    else if args.max_size ≥ 0 && size > args.max_size then false
    else if args.changed_since_epoch ≥ 0 && mtime_ns < args.changed_since_epoch * 1000000000 then false
    else if scope ≠ "all" && top_level ≠ scope then false
    else true
  | _, _ => false

/-- One projected output row (lines 180-190 of `index_query.py`). -/
structure Row where
  path : String
  size : Int
  ext : String
  lang : String
  top_level : String
  mtime_ns : Int
  text_like : Bool
deriving DecidableEq

/-- Row projection of lines 180-190. -/
def rowOf (record : Json) : Row :=
  { path := jsonAsStr ((record.field "path").getD (Json.str ""))
    size := (pyToInt ((record.field "size").getD (Json.num 0))).getD 0
    ext := jsonAsStr ((record.field "ext").getD (Json.str ""))
    lang := jsonAsStr ((record.field "lang").getD (Json.str ""))
    top_level := jsonAsStr ((record.field "top_level").getD (Json.str ""))
    mtime_ns := (pyToInt ((record.field "mtime_ns").getD (Json.num 0))).getD 0
    text_like := pyTruthy ((record.field "text_like").getD (Json.bool false)) }

/-- The filtered, projected but not yet sorted rows of lines 175-190:
`disk` maps an index-relative record file path to its parsed JSONL
records (`iter_jsonl` keeps only dict lines, and a missing file yields
nothing). -/
def queryRows (args : QueryArgs) (manifest : Json) (ext_filter scope : String)
    (disk : List (String × List Json)) : List Row :=
  (record_paths manifest scope).foldl
    (fun acc p =>
      acc ++ (((pyGet disk p).getD []).filter
        (fun record => record.isObj && matches_filters record args ext_filter scope)).map rowOf)
    []

/-- Sort rows by path (`rows.sort(key=lambda item: item["path"])`). -/
def sortRowsByPath (rows : List Row) : List Row :=
  List.insertionSort (fun a b => strLe a.path b.path = true) rows

/-- The data a successful query prints: in JSON format the payload
fields `count`, `scope`, `limit`, `results`; the table format prints the
same rows and footer values. -/
structure QueryOk where
  rows : List Row
  count : Nat
  scope : String
  limit : Int
deriving DecidableEq

/-- `main` of `index_query.py`: argument validation, manifest load,
scope resolution, filtering, sort, truncation, and output assembly;
`Except.error 2` models the usage-error exit. `manifest?` is `none` when
`manifest.json` is missing, unreadable, or not valid JSON. -/
def queryMain (args : QueryArgs) (manifest? : Option Json)
    (disk : List (String × List Json)) : Except Nat QueryOk :=
  if args.limit < 1 then .error 2
  else if args.min_size ≥ 0 ∧ args.max_size ≥ 0 ∧ args.min_size > args.max_size then .error 2
  else
    match manifest? with
    | none => .error 2
    | some manifest =>
      if !manifest.isObj then .error 2
      else
        let scope := if strTrim args.scope = "" then "all" else strTrim args.scope
        let ext_filter := normalize_ext args.ext
        let rows := sortRowsByPath (queryRows args manifest ext_filter scope disk)
        let rows := rows.take args.limit.toNat
        .ok { rows := rows, count := rows.length, scope := scope, limit := args.limit }

/-! Lemmas about the code-point string order used by `sorted`. -/

theorem bool_eq_false {b : Bool} (h : ¬ b = true) : b = false := by
  cases b
  · rfl
  · exact absurd rfl h

theorem char_toNat_inj {c d : Char} (h : c.toNat = d.toNat) : c = d := by
  have hc := Char.ofNat_toNat c
  have hd := Char.ofNat_toNat d
  rw [← hc, ← hd, h]

theorem charsLt_asymm : ∀ a b : List Char, charsLt a b = true → charsLt b a = false := by
  intro a
  induction a with
  | nil =>
    intro b h
    cases b with
    | nil => simp [charsLt] at h
    | cons y ys => simp [charsLt]
  | cons x xs ih =>
    intro b h
    cases b with
    | nil => simp [charsLt] at h
    | cons y ys =>
      rcases Nat.lt_trichotomy x.toNat y.toNat with hlt | heq | hgt
      · simp [charsLt, hlt, Nat.lt_asymm hlt]
      · have hx : ¬ x.toNat < y.toNat := by omega
        have hy : ¬ y.toNat < x.toNat := by omega
        simp [charsLt, hx, hy] at h ⊢
        exact ih ys h
      · have hx : ¬ x.toNat < y.toNat := Nat.lt_asymm hgt
        simp [charsLt, hx, hgt] at h

theorem charsLt_eq_of_not : ∀ a b : List Char, charsLt a b = false → charsLt b a = false → a = b := by
  intro a
  induction a with
  | nil =>
    intro b h1 h2
    cases b with
    | nil => rfl
    | cons y ys => simp [charsLt] at h1
  | cons x xs ih =>
    intro b h1 h2
    cases b with
    | nil => simp [charsLt] at h2
    | cons y ys =>
      rcases Nat.lt_trichotomy x.toNat y.toNat with hlt | heq | hgt
      · simp [charsLt, hlt] at h1
      · have hx : ¬ x.toNat < y.toNat := by omega
        have hy : ¬ y.toNat < x.toNat := by omega
        simp [charsLt, hx, hy] at h1 h2
        rw [char_toNat_inj heq, ih ys h1 h2]
      · simp [charsLt, hgt] at h2

theorem charsLt_negtrans :
    ∀ c a b : List Char, charsLt c a = true → charsLt c b = true ∨ charsLt b a = true := by
  intro c
  induction c with
  | nil =>
    intro a b h
    cases a with
    | nil => simp [charsLt] at h
    | cons x xs =>
      cases b with
      | nil => right; simp [charsLt]
      | cons y ys => left; simp [charsLt]
  | cons z zs ih =>
    intro a b h
    cases a with
    | nil => simp [charsLt] at h
    | cons x xs =>
      cases b with
      | nil => right; simp [charsLt]
      | cons y ys =>
        rcases Nat.lt_trichotomy z.toNat y.toNat with h1 | h1 | h1
        · left; simp [charsLt, h1]
        · rcases Nat.lt_trichotomy z.toNat x.toNat with h2 | h2 | h2
          · right
            simp [charsLt, show y.toNat < x.toNat by omega]
          · have hx : ¬ z.toNat < x.toNat := by omega
            have hx2 : ¬ x.toNat < z.toNat := by omega
            simp [charsLt, hx, hx2] at h
            rcases ih xs ys h with hl | hr
            · left
              have ha : ¬ z.toNat < y.toNat := by omega
              have hb : ¬ y.toNat < z.toNat := by omega
              simp [charsLt, ha, hb, hl]
            · right
              have ha : ¬ y.toNat < x.toNat := by omega
              have hb : ¬ x.toNat < y.toNat := by omega
              simp [charsLt, ha, hb, hr]
          · have hzx : ¬ z.toNat < x.toNat := by omega
            simp [charsLt, hzx, h2] at h
        · rcases Nat.lt_trichotomy z.toNat x.toNat with h2 | h2 | h2
          · right; simp [charsLt, show y.toNat < x.toNat by omega]
          · right; simp [charsLt, show y.toNat < x.toNat by omega]
          · have hzx : ¬ z.toNat < x.toNat := by omega
            simp [charsLt, hzx, h2] at h

theorem strLe_iff (a b : String) : strLe a b = true ↔ charsLt b.data a.data = false := by
  unfold strLe strLt
  cases charsLt b.data a.data <;> simp

theorem strLe_total (a b : String) : strLe a b = true ∨ strLe b a = true := by
  rw [strLe_iff, strLe_iff]
  cases hc : charsLt b.data a.data with
  | false => left; rfl
  | true => right; exact charsLt_asymm _ _ hc

theorem strLe_trans {a b c : String} (h1 : strLe a b = true) (h2 : strLe b c = true) :
    strLe a c = true := by
  rw [strLe_iff] at h1 h2 ⊢
  cases hca : charsLt c.data a.data with
  | false => rfl
  | true =>
    rcases charsLt_negtrans c.data a.data b.data hca with h | h
    · rw [h] at h2; exact Bool.noConfusion h2
    · rw [h] at h1; exact Bool.noConfusion h1

theorem strLe_antisymm {a b : String} (h1 : strLe a b = true) (h2 : strLe b a = true) :
    a = b := by
  rw [strLe_iff] at h1 h2
  have hd : a.data = b.data := charsLt_eq_of_not a.data b.data h2 h1
  cases a
  cases b
  exact congrArg String.mk hd

instance : IsTotal String (fun a b => strLe a b = true) := ⟨strLe_total⟩

instance : IsTrans String (fun a b => strLe a b = true) := ⟨fun _ _ _ => strLe_trans⟩

instance : IsAntisymm String (fun a b => strLe a b = true) := ⟨fun _ _ => strLe_antisymm⟩

/-! Lemmas about the Python-dict model. -/

theorem pyGet_pyInsert {α : Type} :
    ∀ (m : List (String × α)) (k q : String) (v : α),
      pyGet (pyInsert m k v) q = if q = k then some v else pyGet m q := by
  intro m
  induction m with
  | nil => intro k q v; simp [pyInsert, pyGet]
  | cons a rest ih =>
    intro k q v
    obtain ⟨s, w⟩ := a
    by_cases hsk : s = k
    · subst hsk
      simp only [pyInsert, if_pos rfl, pyGet]
      split_ifs <;> rfl
    · simp only [pyInsert, if_neg hsk]
      by_cases hqs : q = s
      · subst hqs
        have hqk : q ≠ k := hsk
        simp [pyGet, hqk]
      · simp [pyGet, hqs, ih]

theorem pyGet_eq_none {α : Type} :
    ∀ (m : List (String × α)) (q : String), pyGet m q = none ↔ q ∉ m.map Prod.fst := by
  intro m
  induction m with
  | nil => intro q; simp [pyGet]
  | cons a rest ih =>
    intro q
    obtain ⟨s, w⟩ := a
    by_cases hqs : q = s
    · subst hqs; simp [pyGet]
    · simp [pyGet, hqs, ih]

theorem pyGet_mem {α : Type} :
    ∀ (m : List (String × α)) (q : String) (v : α), pyGet m q = some v → (q, v) ∈ m := by
  intro m
  induction m with
  | nil => intro q v h; simp [pyGet] at h
  | cons a rest ih =>
    intro q v h
    obtain ⟨s, w⟩ := a
    by_cases hqs : q = s
    · subst hqs
      simp [pyGet] at h
      simp [h]
    · simp [pyGet, hqs] at h
      exact List.mem_cons_of_mem _ (ih q v h)

theorem pyInsert_map_fst {α : Type} :
    ∀ (m : List (String × α)) (k : String) (v : α),
      (pyInsert m k v).map Prod.fst =
        if k ∈ m.map Prod.fst then m.map Prod.fst else m.map Prod.fst ++ [k] := by
  intro m
  induction m with
  | nil => intro k v; simp [pyInsert]
  | cons a rest ih =>
    intro k v
    obtain ⟨s, w⟩ := a
    by_cases hsk : s = k
    · subst hsk
      simp [pyInsert]
    · have hks : k ≠ s := fun h => hsk h.symm
      simp only [pyInsert, if_neg hsk, List.map_cons, List.mem_cons]
      rw [ih k v]
      by_cases hk : k ∈ rest.map Prod.fst
      · simp [hk, hks]
      · simp [hk, hks]

theorem pyInsert_nodup_keys {α : Type} (m : List (String × α)) (k : String) (v : α)
    (h : (m.map Prod.fst).Nodup) : ((pyInsert m k v).map Prod.fst).Nodup := by
  rw [pyInsert_map_fst]
  by_cases hk : k ∈ m.map Prod.fst
  · simpa [hk]
  · simp [hk, List.nodup_append, h]

theorem pyInsert_fresh {α : Type} :
    ∀ (m : List (String × α)) (k : String) (v : α), k ∉ m.map Prod.fst →
      pyInsert m k v = m ++ [(k, v)] := by
  intro m
  induction m with
  | nil => intro k v _; simp [pyInsert]
  | cons a rest ih =>
    intro k v h
    obtain ⟨s, w⟩ := a
    simp only [List.map_cons, List.mem_cons] at h
    push_neg at h
    have hsk : s ≠ k := fun hh => h.1 hh.symm
    simp [pyInsert, hsk, ih k v h.2]

theorem pyUpdate_lookup :
    ∀ (new prev : AList) (q : String), ((new.map Prod.fst).Nodup) →
      pyGet (pyUpdate prev new) q = optOr (pyGet new q) (pyGet prev q) := by
  intro new
  induction new with
  | nil => intro prev q _; simp [pyUpdate, pyGet, optOr]
  | cons a rest ih =>
    intro prev q hnd
    obtain ⟨k, v⟩ := a
    simp only [List.map_cons, List.nodup_cons] at hnd
    have hstep : pyUpdate prev ((k, v) :: rest) = pyUpdate (pyInsert prev k v) rest := rfl
    rw [hstep, ih (pyInsert prev k v) q hnd.2]
    by_cases hqk : q = k
    · subst hqk
      have hq : pyGet rest q = none := (pyGet_eq_none rest q).mpr hnd.1
      simp [pyGet, hq, pyGet_pyInsert, optOr]
    · simp [pyGet, hqk, pyGet_pyInsert, optOr]

/-! Lemmas about the scan loop. -/

theorem is_probably_text_exhausted (c : Candidate) (cnt : Counters) (mrb : Int)
    (h : (is_probably_text c cnt mrb).2.1 = true) : mrb ≤ (cnt.bytes_read : Int) := by
  unfold is_probably_text at h
  by_cases h0 : mrb - (cnt.bytes_read : Int) ≤ 0
  · omega
  · exfalso
    rw [if_neg h0] at h
    split at h
    · simp at h
    · dsimp only [] at h
      split at h
      · simp at h
      · split at h
        · simp at h
        · simp at h

theorem classify_none (cfg : BuildCfg) (c : Candidate) (cnt : Counters) (ext : String)
    (h : classify cfg c cnt ext = none) : cfg.max_read_bytes ≤ (cnt.bytes_read : Int) := by
  simp only [classify] at h
  split_ifs at h with h1 h2 h3
  exact is_probably_text_exhausted c cnt cfg.max_read_bytes h3

theorem computeStep_none (cfg : BuildCfg) (b : Bool) (c : Candidate) (st : FileStat)
    (cnt : Counters) (acc : AList)
    (h : computeStep cfg b c st cnt acc = none) :
    cfg.max_read_bytes ≤ (cnt.bytes_read : Int) := by
  rcases hc : classify cfg c cnt (strToLower (pathSuffix c.rel_path)) with _ | r
  · exact classify_none cfg c cnt _ hc
  · exfalso
    obtain ⟨tl, cnt2⟩ := r
    simp only [computeStep, hc] at h
    exact Option.noConfusion h

theorem computeStep_acc (cfg : BuildCfg) (b : Bool) (c : Candidate) (st : FileStat)
    (cnt : Counters) (acc : AList) (r : Counters × AList)
    (h : computeStep cfg b c st cnt acc = some r) :
    ∃ e, r.2 = pyInsert acc c.rel_path e := by
  rcases hc : classify cfg c cnt (strToLower (pathSuffix c.rel_path)) with _ | p
  · simp only [computeStep, hc] at h
    exact Option.noConfusion h
  · obtain ⟨tl, cnt2⟩ := p
    simp only [computeStep, hc, Option.some.injEq] at h
    exact ⟨_, (congrArg Prod.snd h).symm⟩

theorem runLoop_keys (cfg : BuildCfg) (prev : AList) :
    ∀ (cs : List Candidate) (cnt : Counters) (acc : AList) (p : String),
      p ∈ (runLoop cfg prev cs cnt acc).entries.map Prod.fst →
      p ∈ acc.map Prod.fst ∨ p ∈ cs.map Candidate.rel_path := by
  intro cs
  induction cs with
  | nil =>
    intro cnt acc p h
    left
    simpa [runLoop] using h
  | cons c rest ih =>
    intro cnt acc p h
    simp only [runLoop] at h
    split_ifs at h with h1 h2
    · left; simpa using h
    · left; simpa using h
    · rcases hst : c.stat with _ | st
      · simp only [hst] at h
        rcases ih _ _ p h with h3 | h3
        · left; exact h3
        · right; simp [h3]
      · simp only [hst] at h
        rcases hre : reuseEntry cfg.mode prev c.rel_path (fpJson st) with _ | record
        · simp only [hre] at h
          rcases hcs : computeStep cfg (pyGet prev c.rel_path).isSome c st
              { cnt with files_seen := cnt.files_seen + 1 } acc with _ | pr
          · simp only [hcs] at h
            left; simpa using h
          · simp only [hcs] at h
            obtain ⟨e, he⟩ := computeStep_acc _ _ _ _ _ _ _ hcs
            rcases ih _ _ p h with h3 | h3
            · rw [he] at h3
              rw [pyInsert_map_fst] at h3
              by_cases hk : c.rel_path ∈ acc.map Prod.fst
              · rw [if_pos hk] at h3; left; exact h3
              · rw [if_neg hk] at h3
                rcases List.mem_append.mp h3 with h4 | h4
                · left; exact h4
                · right; simp at h4; simp [h4]
            · right; simp [h3]
        · simp only [hre] at h
          rcases ih _ _ p h with h3 | h3
          · rw [pyInsert_map_fst] at h3
            by_cases hk : c.rel_path ∈ acc.map Prod.fst
            · rw [if_pos hk] at h3; left; exact h3
            · rw [if_neg hk] at h3
              rcases List.mem_append.mp h3 with h4 | h4
              · left; exact h4
              · right; simp at h4; simp [h4]
          · right; simp [h3]

theorem runLoop_nodup (cfg : BuildCfg) (prev : AList) :
    ∀ (cs : List Candidate) (cnt : Counters) (acc : AList),
      ((acc.map Prod.fst).Nodup) →
      ((runLoop cfg prev cs cnt acc).entries.map Prod.fst).Nodup := by
  intro cs
  induction cs with
  | nil =>
    intro cnt acc hacc
    simpa [runLoop] using hacc
  | cons c rest ih =>
    intro cnt acc hacc
    simp only [runLoop]
    split_ifs with h1 h2
    · simpa using hacc
    · simpa using hacc
    · rcases hst : c.stat with _ | st
      · simp only [hst]
        exact ih _ _ hacc
      · simp only [hst]
        rcases hre : reuseEntry cfg.mode prev c.rel_path (fpJson st) with _ | record
        · simp only [hre]
          rcases hcs : computeStep cfg (pyGet prev c.rel_path).isSome c st
              { cnt with files_seen := cnt.files_seen + 1 } acc with _ | pr
          · simp only [hcs]
            simpa using hacc
          · simp only [hcs]
            obtain ⟨e, he⟩ := computeStep_acc _ _ _ _ _ _ _ hcs
            have hpr : ((pr.2).map Prod.fst).Nodup := by
              rw [he]; exact pyInsert_nodup_keys _ _ _ hacc
            exact ih _ _ hpr
        · simp only [hre]
          exact ih _ _ (pyInsert_nodup_keys _ _ _ hacc)

/-! Case lemmas for `load_state` and run assembly. -/

theorem load_state_nonobj (j : Json) (h : j.isObj = false) :
    load_state (.parsed j) = ⟨[], true, "invalid_state_shape"⟩ := by
  cases j <;> first | rfl | simp [Json.isObj] at h

theorem load_state_schema_mismatch (kvs : JObj)
    (h : pyEqOne (pyGet kvs.toList "schema_version") = false) :
    load_state (.parsed (Json.obj kvs)) = ⟨[], true, "state_schema_mismatch"⟩ := by
  simp only [load_state]
  rw [if_pos h]

theorem load_state_entries_invalid (kvs : JObj)
    (h1 : pyEqOne (pyGet kvs.toList "schema_version") = true)
    (ej : Json) (h2 : (pyGet kvs.toList "entries").getD (jobj []) = ej)
    (h3 : ej.isObj = false) :
    load_state (.parsed (Json.obj kvs)) = ⟨[], true, "invalid_state_entries"⟩ := by
  simp only [load_state]
  rw [if_neg (by simp [h1]), h2]
  cases ej <;> first | rfl | simp [Json.isObj] at h3

theorem load_state_accepted (kvs : JObj)
    (h1 : pyEqOne (pyGet kvs.toList "schema_version") = true)
    (ekvs : JObj) (h2 : (pyGet kvs.toList "entries").getD (jobj []) = Json.obj ekvs) :
    load_state (.parsed (Json.obj kvs)) = ⟨sanitize_entries ekvs.toList, false, ""⟩ := by
  simp only [load_state]
  rw [if_neg (by simp [h1]), h2]

theorem runBuild_load (cfg : BuildCfg) (sf : StateFileRead) (cs : List Candidate)
    (h : cfg.mode = Mode.incremental) :
    (runBuild cfg sf cs).previous_entries = (load_state sf).entries ∧
    (runBuild cfg sf cs).fallback_rebuild = (load_state sf).fallback ∧
    (runBuild cfg sf cs).fallback_reason = (load_state sf).reason := by
  simp [runBuild, h]

theorem runBuild_status (cfg : BuildCfg) (sf : StateFileRead) (cs : List Candidate) :
    (runBuild cfg sf cs).status = "ok" ∨ (runBuild cfg sf cs).status = "partial" := by
  simp only [runBuild]
  by_cases hs : (runLoop cfg (if cfg.mode = Mode.incremental then load_state sf
      else ⟨[], false, ""⟩).entries cs {} []).stopped = true
  · right; simp [hs]
  · left; simp [hs]

/-! Concrete fixtures used by counterexamples and witnesses. -/

/-- A well-formed prior state file with a single entry at path `a`. -/
def stateA : Json :=
  jobj [("schema_version", .num 1), ("repo_root", .str "/repo"),
        ("entries", jobj [("a", jobj [("fingerprint", jarr [.num 1, .num 2, .num 3, .num 4]),
                                      ("record", jobj [("path", .str "a")])])])]

/-- The entries object of a prior state file whose `schema_version` is
the boolean `true` (Python-equal to 1). -/
def stateTrueEntries : JObj :=
  JObj.ofList [("a", jobj [("fingerprint", jarr [.num 1, .num 2, .num 3, .num 4]),
                           ("record", jobj [("path", .str "a")])])]

/-- A prior state file whose `schema_version` is the boolean `true`:
Python accepts it because `True == 1`. -/
def stateTrueKvs : JObj :=
  JObj.ofList [("schema_version", .bool true), ("entries", Json.obj stateTrueEntries)]

/-- A sharded manifest whose only shard key is `x`. -/
def manifestSharded : Json :=
  jobj [("storage", jobj [("sharded", .bool true),
                          ("shard_map", jobj [("x", .str "shards/x.jsonl")])])]

/-- An unsharded manifest pointing at `files.jsonl`. -/
def manifestPlain : Json :=
  jobj [("storage", jobj [("sharded", .bool false), ("files_path", .str "files.jsonl")])]

/-- A record in shard `x`. -/
def recX : Json :=
  jobj [("path", .str "x/a.py"), ("size", .num 3), ("mtime_ns", .num 5),
        ("ext", .str ".py"), ("lang", .str "python"), ("text_like", .bool true),
        ("top_level", .str "x")]

/-- First of two records surviving a path-sorted query. -/
def recQ1 : Json :=
  jobj [("path", .str "a.py"), ("size", .num 1), ("mtime_ns", .num 5),
        ("ext", .str ".py"), ("lang", .str "python"), ("text_like", .bool true),
        ("top_level", .str "__root__")]

/-- Second of two records surviving a path-sorted query. -/
def recQ2 : Json :=
  jobj [("path", .str "b.py"), ("size", .num 2), ("mtime_ns", .num 6),
        ("ext", .str ".py"), ("lang", .str "python"), ("text_like", .bool true),
        ("top_level", .str "__root__")]

/-- A record whose top-level directory is `a b`. -/
def recAB1 : Json := jobj [("path", .str "a b/x.txt"), ("top_level", .str "a b")]

/-- A record whose top-level directory is `a_b`. -/
def recAB2 : Json := jobj [("path", .str "a_b/y.txt"), ("top_level", .str "a_b")]

/-! Claim C7. -/

/-- C7 counterexample: an incremental build with a missing prior state
file completes with the fallback flag clear and no reason recorded,
refuting the claim that a missing state file records a fallback. -/
theorem C7_counterexample :
    (runBuild ⟨Mode.incremental, 100, 10, 1000, 0⟩ StateFileRead.missing []).fallback_rebuild
        = false ∧
    (runBuild ⟨Mode.incremental, 100, 10, 1000, 0⟩ StateFileRead.missing []).fallback_reason
        = "" ∧
    (runBuild ⟨Mode.incremental, 100, 10, 1000, 0⟩ StateFileRead.missing []).previous_entries
        = [] ∧
    (runBuild ⟨Mode.incremental, 100, 10, 1000, 0⟩ StateFileRead.missing []).status = "ok" := by
  decide

/-- C7 (amended): in incremental mode, a corrupt, schema-mismatched, or
structurally invalid prior state file makes the build treat the prior
state as empty, set the fallback flag with the matching reason, and
still produce a completed run report; a missing state file is treated as
empty prior state without the fallback flag or a reason. The schema
check uses Python equality, so a `schema_version` of the number 1 or of
boolean `true` (Python-equal to 1) is accepted without fallback, and
only a value Python-unequal to 1 (or a missing key) records the
mismatch. -/
theorem C7_amended (cfg : BuildCfg) (cs : List Candidate)
    (hmode : cfg.mode = Mode.incremental) :
    ((runBuild cfg .missing cs).previous_entries = [] ∧
      (runBuild cfg .missing cs).fallback_rebuild = false ∧
      (runBuild cfg .missing cs).fallback_reason = "") ∧
    ((runBuild cfg .unreadable cs).previous_entries = [] ∧
      (runBuild cfg .unreadable cs).fallback_rebuild = true ∧
      (runBuild cfg .unreadable cs).fallback_reason = "corrupt_state") ∧
    (∀ j : Json, j.isObj = false →
      (runBuild cfg (.parsed j) cs).previous_entries = [] ∧
      (runBuild cfg (.parsed j) cs).fallback_rebuild = true ∧
      (runBuild cfg (.parsed j) cs).fallback_reason = "invalid_state_shape") ∧
    (∀ kvs : JObj, pyEqOne (pyGet kvs.toList "schema_version") = false →
      (runBuild cfg (.parsed (Json.obj kvs)) cs).previous_entries = [] ∧
      (runBuild cfg (.parsed (Json.obj kvs)) cs).fallback_rebuild = true ∧
      (runBuild cfg (.parsed (Json.obj kvs)) cs).fallback_reason = "state_schema_mismatch") ∧
    (∀ kvs : JObj, pyEqOne (pyGet kvs.toList "schema_version") = true →
      ∀ ej : Json, (pyGet kvs.toList "entries").getD (jobj []) = ej → ej.isObj = false →
      (runBuild cfg (.parsed (Json.obj kvs)) cs).previous_entries = [] ∧
      (runBuild cfg (.parsed (Json.obj kvs)) cs).fallback_rebuild = true ∧
      (runBuild cfg (.parsed (Json.obj kvs)) cs).fallback_reason = "invalid_state_entries") ∧
    (∀ kvs : JObj, pyEqOne (pyGet kvs.toList "schema_version") = true →
      ∀ ekvs : JObj, (pyGet kvs.toList "entries").getD (jobj []) = Json.obj ekvs →
      (runBuild cfg (.parsed (Json.obj kvs)) cs).previous_entries =
        sanitize_entries ekvs.toList ∧
      (runBuild cfg (.parsed (Json.obj kvs)) cs).fallback_rebuild = false ∧
      (runBuild cfg (.parsed (Json.obj kvs)) cs).fallback_reason = "") ∧
    (∀ sf : StateFileRead,
      (runBuild cfg sf cs).status = "ok" ∨ (runBuild cfg sf cs).status = "partial") := by
  refine ⟨?_, ?_, ?_, ?_, ?_, ?_, fun sf => runBuild_status cfg sf cs⟩
  · obtain ⟨h1, h2, h3⟩ := runBuild_load cfg .missing cs hmode
    exact ⟨by rw [h1]; rfl, by rw [h2]; rfl, by rw [h3]; rfl⟩
  · obtain ⟨h1, h2, h3⟩ := runBuild_load cfg .unreadable cs hmode
    exact ⟨by rw [h1]; rfl, by rw [h2]; rfl, by rw [h3]; rfl⟩
  · intro j hj
    obtain ⟨h1, h2, h3⟩ := runBuild_load cfg (.parsed j) cs hmode
    rw [h1, h2, h3, load_state_nonobj j hj]
    exact ⟨rfl, rfl, rfl⟩
  · intro kvs hk
    obtain ⟨h1, h2, h3⟩ := runBuild_load cfg (.parsed (Json.obj kvs)) cs hmode
    rw [h1, h2, h3, load_state_schema_mismatch kvs hk]
    exact ⟨rfl, rfl, rfl⟩
  · intro kvs hk ej hej hj
    obtain ⟨h1, h2, h3⟩ := runBuild_load cfg (.parsed (Json.obj kvs)) cs hmode
    rw [h1, h2, h3, load_state_entries_invalid kvs hk ej hej hj]
    exact ⟨rfl, rfl, rfl⟩
  · intro kvs hk ekvs hek
    obtain ⟨h1, h2, h3⟩ := runBuild_load cfg (.parsed (Json.obj kvs)) cs hmode
    rw [h1, h2, h3, load_state_accepted kvs hk ekvs hek]
    exact ⟨rfl, rfl, rfl⟩

/-- C7 witness: the amended theorem applied to a concrete incremental
configuration, once at an unreadable state file (fallback with reason)
and once at a state file whose `schema_version` is boolean `true`,
which Python accepts without fallback. -/
theorem C7_witness :
    ((runBuild ⟨Mode.incremental, 5, 5, 100, 0⟩ .unreadable []).previous_entries = [] ∧
      (runBuild ⟨Mode.incremental, 5, 5, 100, 0⟩ .unreadable []).fallback_rebuild = true ∧
      (runBuild ⟨Mode.incremental, 5, 5, 100, 0⟩ .unreadable []).fallback_reason
        = "corrupt_state") ∧
    ((runBuild ⟨Mode.incremental, 5, 5, 100, 0⟩
        (.parsed (Json.obj stateTrueKvs)) []).previous_entries =
        sanitize_entries stateTrueEntries.toList ∧
      (runBuild ⟨Mode.incremental, 5, 5, 100, 0⟩
        (.parsed (Json.obj stateTrueKvs)) []).fallback_rebuild = false ∧
      (runBuild ⟨Mode.incremental, 5, 5, 100, 0⟩
        (.parsed (Json.obj stateTrueKvs)) []).fallback_reason = "") :=
  ⟨(C7_amended ⟨Mode.incremental, 5, 5, 100, 0⟩ [] rfl).2.1,
   (C7_amended ⟨Mode.incremental, 5, 5, 100, 0⟩ [] rfl).2.2.2.2.2.1 stateTrueKvs (by decide)
     stateTrueEntries (by decide)⟩

/-! Claim C8. -/

/-- C8 counterexample: the build accepts a probe-byte budget of 0 even
though 0 < 1, proceeding with the run instead of failing fast, refuting
the claim that every budget argument below 1 is rejected. -/
theorem C8_counterexample :
    (0 : Int) < 1 ∧
    indexBuildMain ⟨Mode.full, 100, 10, 0, 0⟩ .missing [] =
      .ok (runBuild ⟨Mode.full, 100, 10, 0, 0⟩ .missing []) := by
  exact ⟨by decide, rfl⟩

/-- C8 (amended): the build tool fails fast with exit status 2 and
produces no run exactly when the file-count or seconds budget is below 1
or the probe-byte budget is negative (0 probe bytes is accepted); the
query tool fails fast with exit status 2 whenever the row limit is below
1 or both size bounds are non-negative with minimum above maximum. -/
theorem C8_amended :
    (∀ (cfg : BuildCfg) (sf : StateFileRead) (cs : List Candidate),
      indexBuildMain cfg sf cs = .error 2 ↔
        (cfg.max_files_per_run < 1 ∨ cfg.max_seconds < 1 ∨ cfg.max_read_bytes < 0)) ∧
    (∀ (args : QueryArgs) (m? : Option Json) (disk : List (String × List Json)),
      (args.limit < 1 ∨ (0 ≤ args.min_size ∧ 0 ≤ args.max_size ∧ args.max_size < args.min_size)) →
      queryMain args m? disk = .error 2) := by
  constructor
  · intro cfg sf cs
    constructor
    · intro h
      by_contra hc
      push_neg at hc
      obtain ⟨h1, h2, h3⟩ := hc
      simp only [indexBuildMain] at h
      rw [if_neg (by omega), if_neg (by omega), if_neg (by omega)] at h
      exact Except.noConfusion h
    · intro h
      simp only [indexBuildMain]
      rcases h with h | h | h
      · rw [if_pos h]
      · split_ifs <;> rfl
      · split_ifs <;> rfl
  · intro args m? disk h
    simp only [queryMain]
    rcases h with h | ⟨h1, h2, h3⟩
    · rw [if_pos h]
    · by_cases hl : args.limit < 1
      · rw [if_pos hl]
      · rw [if_neg hl, if_pos ⟨h1, h2, h3⟩]

/-- C8 witness: the amended theorem applied to a zero file budget and a
zero row limit. -/
theorem C8_witness :
    indexBuildMain ⟨Mode.full, 0, 10, 10, 0⟩ .missing [] = .error 2 ∧
    queryMain { limit := 0 } none [] = .error 2 :=
  ⟨(C8_amended.1 ⟨Mode.full, 0, 10, 10, 0⟩ .missing []).mpr (Or.inl (by decide)),
   C8_amended.2 { limit := 0 } none [] (Or.inl (by decide))⟩

/-! Claim C10. -/

/-- C10: shard-name sanitization is not injective — the distinct
top-level names `a b` and `a_b` both map to segment `a_b.jsonl`, and in
a sharded full build the group written later (`a_b`, last in sorted
order) overwrites the other group's records, leaving only one shard file
that contains only the `a_b` records. -/
theorem C10_confirmed :
    sanitize_shard_name "a b" = "a_b.jsonl" ∧
    sanitize_shard_name "a_b" = "a_b.jsonl" ∧
    ("a b" : String) ≠ "a_b" ∧
    groupedByTopLevel [recAB1, recAB2] = [("a b", [recAB1]), ("a_b", [recAB2])] ∧
    writeShards ⟨Mode.full, 100, 10, 1000, 0⟩ false []
        (groupedByTopLevel [recAB1, recAB2]) [] = [("a_b.jsonl", [recAB2])] := by
  decide

/-! Claim C5. -/

/-- C5 counterexample: with two surviving rows and a row limit of 1, the
JSON payload reports `count = 1` (the truncated row count), not the
total surviving-row count 2 the claim requires. -/
theorem C5_counterexample :
    (queryRows { limit := 1 } manifestPlain "" "all" [("files.jsonl", [recQ1, recQ2])]).length
        = 2 ∧
    queryMain { limit := 1 } (some manifestPlain) [("files.jsonl", [recQ1, recQ2])] =
      .ok { rows := [rowOf recQ1], count := 1, scope := "all", limit := 1 } := by
  decide

/-- C5 (amended): for every successful query, the reported count is the
number of rows after truncation to the limit (the minimum of the
surviving-row count and the limit), and the payload echoes the effective
scope and the requested limit. -/
theorem C5_amended (args : QueryArgs) (manifest : Json)
    (disk : List (String × List Json)) (out : QueryOk)
    (h : queryMain args (some manifest) disk = .ok out) :
    out.count =
      min ((args.limit).toNat)
        (sortRowsByPath (queryRows args manifest (normalize_ext args.ext) out.scope disk)).length ∧
    out.rows =
      (sortRowsByPath (queryRows args manifest (normalize_ext args.ext) out.scope disk)).take
        (args.limit).toNat ∧
    out.scope = (if strTrim args.scope = "" then "all" else strTrim args.scope) ∧
    out.limit = args.limit := by
  simp only [queryMain] at h
  by_cases hl : args.limit < 1
  · rw [if_pos hl] at h; exact Except.noConfusion h
  · rw [if_neg hl] at h
    by_cases hs : args.min_size ≥ 0 ∧ args.max_size ≥ 0 ∧ args.min_size > args.max_size
    · rw [if_pos hs] at h; exact Except.noConfusion h
    · rw [if_neg hs] at h
      by_cases hm : (!manifest.isObj) = true
      · rw [if_pos hm] at h; exact Except.noConfusion h
      · rw [if_neg hm] at h
        set S := if strTrim args.scope = "" then "all" else strTrim args.scope with hS
        simp only [Except.ok.injEq] at h
        subst h
        exact ⟨List.length_take _ _, rfl, rfl, rfl⟩

/-- C5 witness: the amended theorem applied to an empty index. -/
theorem C5_witness :
    ((⟨[], 0, "all", 200⟩ : QueryOk).count =
      min ((200 : Int)).toNat
        (sortRowsByPath (queryRows {} manifestPlain (normalize_ext "") "all" [])).length ∧
    (⟨[], 0, "all", 200⟩ : QueryOk).rows =
      (sortRowsByPath (queryRows {} manifestPlain (normalize_ext "") "all" [])).take
        ((200 : Int)).toNat ∧
    (⟨[], 0, "all", 200⟩ : QueryOk).scope =
      (if strTrim "all" = "" then "all" else strTrim "all") ∧
    (⟨[], 0, "all", 200⟩ : QueryOk).limit = (200 : Int)) :=
  C5_amended {} manifestPlain [] ⟨[], 0, "all", 200⟩ (by decide)

/-! Claim C6. -/

/-- C6 counterexample: querying a sharded index with the unknown scope
`y` resolves no record sources and succeeds with exit status 0 and an
empty result, refuting the claim that an unknown scope is reported as a
usage error with non-zero exit. -/
theorem C6_counterexample :
    record_paths manifestSharded "y" = [] ∧
    queryMain { scope := "y" } (some manifestSharded) [("shards/x.jsonl", [recX])] =
      .ok { rows := [], count := 0, scope := "y", limit := 200 } := by
  decide

/-- C6 (amended): a query against a sharded index whose trimmed scope is
neither `all` nor a key of the manifest's shard map resolves no record
sources and succeeds (exit 0) with an empty result set, rather than
reporting a usage error. -/
theorem C6_amended (args : QueryArgs) (manifest : Json)
    (disk : List (String × List Json)) (kvs : JObj)
    (hlim : ¬ args.limit < 1)
    (hsz : ¬ (0 ≤ args.min_size ∧ 0 ≤ args.max_size ∧ args.max_size < args.min_size))
    (hobj : manifest.isObj = true)
    (hsh : pyTruthy ((((manifest.field "storage").getD (jobj [])).field "sharded").getD
        (Json.bool false)) = true)
    (hmap : (((manifest.field "storage").getD (jobj [])).field "shard_map").getD (jobj [])
        = Json.obj kvs)
    (hne : strTrim args.scope ≠ "")
    (hall : strTrim args.scope ≠ "all")
    (hmem : pyGet kvs.toList (strTrim args.scope) = none) :
    record_paths manifest (strTrim args.scope) = [] ∧
    queryMain args (some manifest) disk =
      .ok ⟨[], 0, strTrim args.scope, args.limit⟩ := by
  have hrp : record_paths manifest (strTrim args.scope) = [] := by
    simp only [record_paths]
    simp [hsh, hmap, hall, hmem]
  refine ⟨hrp, ?_⟩
  simp only [queryMain]
  rw [if_neg hlim, if_neg (by exact fun hc => hsz ⟨hc.1, hc.2.1, hc.2.2⟩)]
  rw [if_neg (by simp [hobj])]
  rw [if_neg hne]
  simp only [queryRows, hrp, List.foldl_nil]
  simp [sortRowsByPath]

/-- C6 witness: the amended theorem applied to the concrete sharded
manifest and the absent scope `z`. -/
theorem C6_witness :
    record_paths manifestSharded (strTrim "z") = [] ∧
    queryMain { scope := "z" } (some manifestSharded) [("shards/x.jsonl", [recX])] =
      .ok ⟨[], 0, strTrim "z", 200⟩ :=
  C6_amended { scope := "z" } manifestSharded [("shards/x.jsonl", [recX])]
    (JObj.ofList [("x", .str "shards/x.jsonl")])
    (by decide) (by decide) (by decide) (by decide) (by decide) (by decide) (by decide)
    (by decide)

/-! Run-level helper lemmas for claims C1-C3. -/

theorem runBuild_cases (cfg : BuildCfg) (sf : StateFileRead) (cs : List Candidate) :
    ((runBuild cfg sf cs).status = "partial" ∧
      (runBuild cfg sf cs).final_entries =
        pyUpdate (runBuild cfg sf cs).previous_entries (runBuild cfg sf cs).new_entries ∧
      (runBuild cfg sf cs).counters.files_removed = 0) ∨
    ((runBuild cfg sf cs).status = "ok" ∧
      (runBuild cfg sf cs).final_entries = (runBuild cfg sf cs).new_entries ∧
      (runBuild cfg sf cs).counters.files_removed =
        (removedKeys (runBuild cfg sf cs).previous_entries
          (runBuild cfg sf cs).new_entries).length) := by
  simp only [runBuild]
  by_cases hs : (runLoop cfg (if cfg.mode = Mode.incremental then load_state sf
      else ⟨[], false, ""⟩).entries cs {} []).stopped = true
  · left; simp [hs]
  · right; simp [hs]

theorem runBuild_new (cfg : BuildCfg) (sf : StateFileRead) (cs : List Candidate) :
    (runBuild cfg sf cs).new_entries =
      (runLoop cfg (runBuild cfg sf cs).previous_entries cs {} []).entries := by
  simp only [runBuild]

theorem runBuild_new_keys (cfg : BuildCfg) (sf : StateFileRead) (cs : List Candidate)
    (p : String) (hmem : p ∈ (runBuild cfg sf cs).new_entries.map Prod.fst) :
    p ∈ cs.map Candidate.rel_path := by
  rw [runBuild_new] at hmem
  rcases runLoop_keys cfg _ cs {} [] p hmem with h | h
  · simp at h
  · exact h

theorem runBuild_new_nodup (cfg : BuildCfg) (sf : StateFileRead) (cs : List Candidate) :
    ((runBuild cfg sf cs).new_entries.map Prod.fst).Nodup := by
  rw [runBuild_new]
  exact runLoop_nodup cfg _ cs {} [] (by simp)

theorem sanitize_entries_obj (kvs : List (String × Json)) :
    ∀ (q : String) (w : Entry), pyGet (sanitize_entries kvs) q = some w →
      w.record.isObj = true := by
  have main : ∀ (l : List (String × Json)) (acc : AList),
      (∀ q w, pyGet acc q = some w → w.record.isObj = true) →
      ∀ q w, pyGet (l.foldl sanitizeStep acc) q = some w → w.record.isObj = true := by
    intro l
    induction l with
    | nil => intro acc hacc; simpa using hacc
    | cons kv rest ih =>
      intro acc hacc
      rw [List.foldl_cons]
      refine ih (sanitizeStep acc kv) ?_
      intro q w h
      simp only [sanitizeStep] at h
      rcases hfp : kv.2.field "fingerprint" with _ | fp
      · simp only [hfp] at h
        exact hacc q w h
      · simp only [hfp] at h
        rcases hrec : kv.2.field "record" with _ | rec
        · simp only [hrec] at h
          exact hacc q w h
        · simp only [hrec] at h
          split_ifs at h with hg
          · rw [pyGet_pyInsert] at h
            split_ifs at h with hq
            · cases h
              exact (Bool.and_eq_true _ _).mp hg |>.2
            · exact hacc q w h
          · exact hacc q w h
  exact main kvs [] (by intro q w h; simp [pyGet] at h)

theorem load_state_records_obj (sf : StateFileRead) (p : String) (e : Entry)
    (h : pyGet (load_state sf).entries p = some e) : e.record.isObj = true := by
  cases sf with
  | missing => simp [load_state, pyGet] at h
  | unreadable => simp [load_state, pyGet] at h
  | parsed payload =>
    cases payload with
    | obj kvs =>
      simp only [load_state] at h
      split_ifs at h with h1
      · simp [pyGet] at h
      · rcases he : (pyGet kvs.toList "entries").getD (jobj []) with _ | _ | _ | _ | _ | ekvs <;>
          rw [he] at h
        · simp [pyGet] at h
        · simp [pyGet] at h
        · simp [pyGet] at h
        · simp [pyGet] at h
        · simp [pyGet] at h
        · exact sanitize_entries_obj ekvs.toList p e h
    | null => simp [load_state, pyGet] at h
    | bool b => simp [load_state, pyGet] at h
    | num n => simp [load_state, pyGet] at h
    | str s => simp [load_state, pyGet] at h
    | arr xs => simp [load_state, pyGet] at h

/-! Claim C1. -/

/-- C1 counterexample: a completed full-mode run over an empty tree with
a prior state file containing path `a` drops `a` from the new state but
reports `files_removed = 0`, because full mode never loads the prior
state; this refutes the claim for full mode. -/
theorem C1_counterexample :
    ("a", Entry.mk (jarr [.num 1, .num 2, .num 3, .num 4]) (jobj [("path", .str "a")])) ∈
        (load_state (.parsed stateA)).entries ∧
    (runBuild ⟨Mode.full, 100, 10, 1000, 0⟩ (.parsed stateA) []).status = "ok" ∧
    pyGet (runBuild ⟨Mode.full, 100, 10, 1000, 0⟩ (.parsed stateA) []).final_entries "a"
        = none ∧
    (runBuild ⟨Mode.full, 100, 10, 1000, 0⟩ (.parsed stateA) []).counters.files_removed = 0 := by
  decide

/-- C1 (amended): for every completed (status "ok") incremental run,
every path present in the loaded prior state and absent from the
filesystem at run time is absent from the new state's entry set and is
counted in `files_removed`; in full mode the prior state file is never
loaded, so such paths are absent from the new state but `files_removed`
stays 0. -/
theorem C1_amended (cfg : BuildCfg) (sf : StateFileRead) (cs : List Candidate) (p : String)
    (hmode : cfg.mode = Mode.incremental)
    (hok : (runBuild cfg sf cs).status = "ok")
    (hp : p ∈ (load_state sf).entries.map Prod.fst)
    (habs : p ∉ cs.map Candidate.rel_path) :
    pyGet (runBuild cfg sf cs).final_entries p = none ∧
    p ∈ removedKeys (runBuild cfg sf cs).previous_entries (runBuild cfg sf cs).new_entries ∧
    (runBuild cfg sf cs).counters.files_removed =
      (removedKeys (runBuild cfg sf cs).previous_entries
        (runBuild cfg sf cs).new_entries).length := by
  have hnone : pyGet (runBuild cfg sf cs).new_entries p = none := by
    rw [pyGet_eq_none]
    intro hmem
    exact habs (runBuild_new_keys cfg sf cs p hmem)
  rcases runBuild_cases cfg sf cs with ⟨hst, _, _⟩ | ⟨hst, hfin, hrem⟩
  · rw [hok] at hst
    exact absurd hst (by decide)
  · obtain ⟨hprev, _, _⟩ := runBuild_load cfg sf cs hmode
    refine ⟨by rw [hfin]; exact hnone, ?_, hrem⟩
    rw [removedKeys, List.mem_filter]
    constructor
    · rw [hprev]
      exact List.mem_dedup.mpr hp
    · simp [hnone]

/-- C1 witness: the amended theorem applied to an incremental run over
an empty candidate list with prior state containing path `a`. -/
theorem C1_witness :
    pyGet (runBuild ⟨Mode.incremental, 100, 10, 1000, 0⟩ (.parsed stateA) []).final_entries "a"
        = none ∧
    "a" ∈ removedKeys
        (runBuild ⟨Mode.incremental, 100, 10, 1000, 0⟩ (.parsed stateA) []).previous_entries
        (runBuild ⟨Mode.incremental, 100, 10, 1000, 0⟩ (.parsed stateA) []).new_entries ∧
    (runBuild ⟨Mode.incremental, 100, 10, 1000, 0⟩ (.parsed stateA) []).counters.files_removed =
      (removedKeys
        (runBuild ⟨Mode.incremental, 100, 10, 1000, 0⟩ (.parsed stateA) []).previous_entries
        (runBuild ⟨Mode.incremental, 100, 10, 1000, 0⟩ (.parsed stateA) []).new_entries).length :=
  C1_amended ⟨Mode.incremental, 100, 10, 1000, 0⟩ (.parsed stateA) [] "a"
    rfl (by decide) (by decide) (by decide)

/-! Claim C2. -/

/-- C2: for every run persisted as partial, the final entry set is the
prior state merged with the entries produced this run (new entries win
on conflicting path keys), `files_removed` is 0, and no path present in
the prior state is dropped. -/
theorem C2_confirmed (cfg : BuildCfg) (sf : StateFileRead) (cs : List Candidate)
    (hpart : (runBuild cfg sf cs).status = "partial") :
    (∀ p : String,
      pyGet (runBuild cfg sf cs).final_entries p =
        optOr (pyGet (runBuild cfg sf cs).new_entries p)
          (pyGet (runBuild cfg sf cs).previous_entries p)) ∧
    (runBuild cfg sf cs).counters.files_removed = 0 ∧
    (∀ p : String, (pyGet (runBuild cfg sf cs).previous_entries p).isSome = true →
      (pyGet (runBuild cfg sf cs).final_entries p).isSome = true) := by
  rcases runBuild_cases cfg sf cs with ⟨hst, hfin, hrem⟩ | ⟨hst, _, _⟩
  · have hmerge : ∀ p, pyGet (runBuild cfg sf cs).final_entries p =
        optOr (pyGet (runBuild cfg sf cs).new_entries p)
          (pyGet (runBuild cfg sf cs).previous_entries p) := by
      intro p
      rw [hfin]
      exact pyUpdate_lookup _ _ p (runBuild_new_nodup cfg sf cs)
    refine ⟨hmerge, hrem, ?_⟩
    intro p hsome
    rw [hmerge p]
    cases hn : pyGet (runBuild cfg sf cs).new_entries p with
    | none => simpa [optOr, hn] using hsome
    | some v => simp [optOr, hn]
  · rw [hpart] at hst
    exact absurd hst (by decide)

/-- Partial-run fixture: incremental mode with a file budget of 1 over
two candidates. -/
def cfgPartial : BuildCfg := ⟨Mode.incremental, 1, 10, 1000, 0⟩

/-- First candidate of the partial-run fixture. -/
def candA : Candidate := ⟨"a.py", 0, some ⟨3, 5, 1, 7⟩, false, [65, 66, 67]⟩

/-- Second candidate of the partial-run fixture (cut off by the file
budget). -/
def candB : Candidate := ⟨"b.md", 1, some ⟨4, 6, 1, 9⟩, false, []⟩

/-- C2 witness: the merge equation and suppressed removal accounting of
a concrete partial run, at the prior path `a`. -/
theorem C2_witness :
    pyGet (runBuild cfgPartial (.parsed stateA) [candA, candB]).final_entries "a" =
      optOr (pyGet (runBuild cfgPartial (.parsed stateA) [candA, candB]).new_entries "a")
        (pyGet (runBuild cfgPartial (.parsed stateA) [candA, candB]).previous_entries "a") ∧
    (runBuild cfgPartial (.parsed stateA) [candA, candB]).counters.files_removed = 0 :=
  have h := C2_confirmed cfgPartial (.parsed stateA) [candA, candB] (by decide)
  ⟨h.1 "a", h.2.1⟩

/-! Claim C3. -/

/-- C3: when the scan in incremental mode reaches a candidate (both
budget checks pass) whose stat succeeds and whose path has a prior
state entry with a component-wise identical fingerprint, the loop
re-emits exactly the prior entry's record, increments `files_reused`,
and moves on; classification is not recomputed. -/
theorem C3_confirmed (cfg : BuildCfg) (sf : StateFileRead) (c : Candidate)
    (rest : List Candidate) (cnt : Counters) (acc : AList) (st : FileStat) (e : Entry)
    (hmode : cfg.mode = Mode.incremental)
    (hseen : ¬ ((cnt.files_seen : Int) ≥ cfg.max_files_per_run))
    (htime : ¬ (c.mono_now ≥ cfg.deadline))
    (hstat : c.stat = some st)
    (hold : pyGet (load_state sf).entries c.rel_path = some e)
    (hfp : e.fingerprint = fpJson st) :
    runLoop cfg (load_state sf).entries (c :: rest) cnt acc =
      runLoop cfg (load_state sf).entries rest
        { cnt with files_seen := cnt.files_seen + 1, files_reused := cnt.files_reused + 1 }
        (pyInsert acc c.rel_path ⟨fpJson st, e.record⟩) := by
  have hobj : e.record.isObj = true := load_state_records_obj sf c.rel_path e hold
  have hre : reuseEntry cfg.mode (load_state sf).entries c.rel_path (fpJson st)
      = some e.record := by
    simp [reuseEntry, hmode, hold, hfp, hobj]
  simp only [runLoop, if_neg hseen, if_neg htime, hstat, hre]

/-- Reuse fixture: a candidate whose stat matches the fingerprint stored
for path `a` in `stateA`. -/
def candReuse : Candidate := ⟨"a", 0, some ⟨1, 2, 3, 4⟩, false, []⟩

/-- C3 witness: the reuse step applied to the concrete prior state
`stateA` and a candidate with an identical fingerprint. -/
theorem C3_witness :
    runLoop ⟨Mode.incremental, 100, 10, 1000, 0⟩ (load_state (.parsed stateA)).entries
        [candReuse] {} [] =
      runLoop ⟨Mode.incremental, 100, 10, 1000, 0⟩ (load_state (.parsed stateA)).entries
        [] { files_seen := 1, files_reused := 1 }
        (pyInsert [] "a" ⟨fpJson ⟨1, 2, 3, 4⟩, jobj [("path", .str "a")]⟩) :=
  C3_confirmed ⟨Mode.incremental, 100, 10, 1000, 0⟩ (.parsed stateA) candReuse [] {} []
    ⟨1, 2, 3, 4⟩ ⟨jarr [.num 1, .num 2, .num 3, .num 4], jobj [("path", .str "a")]⟩
    rfl (by decide) (by decide) rfl (by decide) (by decide)

/-! Claim C4: budget exhaustion stops the scan at the triggering file. -/

theorem runLoop_stopped_split (cfg : BuildCfg) (prev : AList) :
    ∀ (cs : List Candidate) (cnt : Counters) (acc : AList),
      (runLoop cfg prev cs cnt acc).stopped = true →
      ∃ pre c post,
        cs = pre ++ c :: post ∧
        (runLoop cfg prev pre cnt acc).stopped = false ∧
        (runLoop cfg prev cs cnt acc).entries = (runLoop cfg prev pre cnt acc).entries ∧
        (((runLoop cfg prev cs cnt acc).stop_reason = "max_files_per_run_reached" ∧
            ((runLoop cfg prev pre cnt acc).counters.files_seen : Int) ≥ cfg.max_files_per_run) ∨
         ((runLoop cfg prev cs cnt acc).stop_reason = "max_seconds_reached" ∧
            c.mono_now ≥ cfg.deadline) ∨
         ((runLoop cfg prev cs cnt acc).stop_reason = "max_read_bytes_reached" ∧
            cfg.max_read_bytes ≤
              ((runLoop cfg prev pre cnt acc).counters.bytes_read : Int))) := by
  intro cs
  induction cs with
  | nil =>
    intro cnt acc h
    simp [runLoop] at h
  | cons c rest ih =>
    intro cnt acc h
    by_cases h1 : (cnt.files_seen : Int) ≥ cfg.max_files_per_run
    · refine ⟨[], c, rest, rfl, by simp [runLoop], by simp [runLoop, h1], ?_⟩
      left
      exact ⟨by simp [runLoop, h1], by simpa [runLoop] using h1⟩
    · by_cases h2 : c.mono_now ≥ cfg.deadline
      · refine ⟨[], c, rest, rfl, by simp [runLoop], by simp [runLoop, h1, h2], ?_⟩
        right; left
        exact ⟨by simp [runLoop, h1, h2], h2⟩
      · rcases hst : c.stat with _ | st
        · have hstep : ∀ l, runLoop cfg prev (c :: l) cnt acc =
              runLoop cfg prev l
                { cnt with files_seen := cnt.files_seen + 1,
                           files_unreadable := cnt.files_unreadable + 1 } acc := by
            intro l
            simp [runLoop, h1, h2, hst]
          rw [hstep rest] at h
          obtain ⟨pre', c', post', hsplit, hpre, hent, hcase⟩ := ih _ _ h
          refine ⟨c :: pre', c', post', by rw [hsplit, List.cons_append], ?_, ?_, ?_⟩
          · rw [hstep pre']; exact hpre
          · rw [hstep rest, hstep pre']; exact hent
          · rw [hstep rest, hstep pre']; exact hcase
        · rcases hre : reuseEntry cfg.mode prev c.rel_path (fpJson st) with _ | record
          · rcases hcs : computeStep cfg (pyGet prev c.rel_path).isSome c st
                { cnt with files_seen := cnt.files_seen + 1 } acc with _ | pr
            · refine ⟨[], c, rest, rfl, by simp [runLoop],
                by simp [runLoop, h1, h2, hst, hre, hcs], ?_⟩
              right; right
              refine ⟨by simp [runLoop, h1, h2, hst, hre, hcs], ?_⟩
              have hbyte := computeStep_none _ _ _ _ _ _ hcs
              simpa [runLoop] using hbyte
            · have hstep : ∀ l, runLoop cfg prev (c :: l) cnt acc =
                  runLoop cfg prev l pr.1 pr.2 := by
                intro l
                simp [runLoop, h1, h2, hst, hre, hcs]
              rw [hstep rest] at h
              obtain ⟨pre', c', post', hsplit, hpre, hent, hcase⟩ := ih _ _ h
              refine ⟨c :: pre', c', post', by rw [hsplit, List.cons_append], ?_, ?_, ?_⟩
              · rw [hstep pre']; exact hpre
              · rw [hstep rest, hstep pre']; exact hent
              · rw [hstep rest, hstep pre']; exact hcase
          · have hstep : ∀ l, runLoop cfg prev (c :: l) cnt acc =
                runLoop cfg prev l
                  { cnt with
                      files_seen := cnt.files_seen + 1
                      files_reused := cnt.files_reused + 1 }
                  (pyInsert acc c.rel_path ⟨fpJson st, record⟩) := by
              intro l
              simp [runLoop, h1, h2, hst, hre]
            rw [hstep rest] at h
            obtain ⟨pre', c', post', hsplit, hpre, hent, hcase⟩ := ih _ _ h
            refine ⟨c :: pre', c', post', by rw [hsplit, List.cons_append], ?_, ?_, ?_⟩
            · rw [hstep pre']; exact hpre
            · rw [hstep rest, hstep pre']; exact hent
            · rw [hstep rest, hstep pre']; exact hcase

theorem runBuild_stop_iff (cfg : BuildCfg) (sf : StateFileRead) (cs : List Candidate) :
    ((runBuild cfg sf cs).status = "partial" ↔
      (runLoop cfg (runBuild cfg sf cs).previous_entries cs {} []).stopped = true) ∧
    (runBuild cfg sf cs).stop_reason =
      (runLoop cfg (runBuild cfg sf cs).previous_entries cs {} []).stop_reason := by
  simp only [runBuild]
  by_cases hs : (runLoop cfg (if cfg.mode = Mode.incremental then load_state sf
      else ⟨[], false, ""⟩).entries cs {} []).stopped = true
  · exact ⟨iff_of_true (by simp [hs]) hs, trivial⟩
  · exact ⟨iff_of_false (by simp [hs]) hs, trivial⟩

/-- C4: every run persisted as partial stopped the scan at the first
file whose budget check failed: the stop reason names the specific
budget ("max_files_per_run_reached", "max_seconds_reached", or
"max_read_bytes_reached"), the candidate list splits as
`pre ++ c :: post` where the scan of `pre` did not stop, the triggering
file `c` contributed no record (the run's new entry set is exactly the
entry set accumulated over `pre`), no candidate of `post` was processed,
and the named budget was indeed exhausted at `c`. -/
theorem C4_confirmed (cfg : BuildCfg) (sf : StateFileRead) (cs : List Candidate)
    (hpart : (runBuild cfg sf cs).status = "partial") :
    ((runBuild cfg sf cs).stop_reason = "max_files_per_run_reached" ∨
     (runBuild cfg sf cs).stop_reason = "max_seconds_reached" ∨
     (runBuild cfg sf cs).stop_reason = "max_read_bytes_reached") ∧
    ∃ pre c post, cs = pre ++ c :: post ∧
      (runLoop cfg (runBuild cfg sf cs).previous_entries pre {} []).stopped = false ∧
      (runBuild cfg sf cs).new_entries =
        (runLoop cfg (runBuild cfg sf cs).previous_entries pre {} []).entries ∧
      (((runBuild cfg sf cs).stop_reason = "max_files_per_run_reached" ∧
          ((runLoop cfg (runBuild cfg sf cs).previous_entries pre {} []).counters.files_seen :
            Int) ≥ cfg.max_files_per_run) ∨
       ((runBuild cfg sf cs).stop_reason = "max_seconds_reached" ∧
          c.mono_now ≥ cfg.deadline) ∨
       ((runBuild cfg sf cs).stop_reason = "max_read_bytes_reached" ∧
          cfg.max_read_bytes ≤
            ((runLoop cfg (runBuild cfg sf cs).previous_entries pre {} []).counters.bytes_read :
              Int))) := by
  obtain ⟨hiff, hreason⟩ := runBuild_stop_iff cfg sf cs
  have hstopped := hiff.mp hpart
  obtain ⟨pre, c, post, hsplit, hpre, hent, hcase⟩ :=
    runLoop_stopped_split cfg (runBuild cfg sf cs).previous_entries cs {} [] hstopped
  have hnew : (runBuild cfg sf cs).new_entries =
      (runLoop cfg (runBuild cfg sf cs).previous_entries pre {} []).entries := by
    rw [runBuild_new cfg sf cs]
    exact hent
  refine ⟨?_, pre, c, post, hsplit, hpre, hnew, ?_⟩
  · rcases hcase with ⟨hr, _⟩ | ⟨hr, _⟩ | ⟨hr, _⟩
    · left; rw [hreason, hr]
    · right; left; rw [hreason, hr]
    · right; right; rw [hreason, hr]
  · rcases hcase with ⟨hr, hc⟩ | ⟨hr, hc⟩ | ⟨hr, hc⟩
    · left; exact ⟨by rw [hreason, hr], hc⟩
    · right; left; exact ⟨by rw [hreason, hr], hc⟩
    · right; right; exact ⟨by rw [hreason, hr], hc⟩

/-- C4 witness: the theorem applied to a concrete incremental run that
exhausts a file budget of 1 at its second candidate. -/
theorem C4_witness :
    ((runBuild cfgPartial (.parsed stateA) [candA, candB]).stop_reason
        = "max_files_per_run_reached" ∨
     (runBuild cfgPartial (.parsed stateA) [candA, candB]).stop_reason
        = "max_seconds_reached" ∨
     (runBuild cfgPartial (.parsed stateA) [candA, candB]).stop_reason
        = "max_read_bytes_reached") ∧
    ∃ pre c post, [candA, candB] = pre ++ c :: post ∧
      (runLoop cfgPartial
        (runBuild cfgPartial (.parsed stateA) [candA, candB]).previous_entries pre {} []).stopped
        = false ∧
      (runBuild cfgPartial (.parsed stateA) [candA, candB]).new_entries =
        (runLoop cfgPartial
          (runBuild cfgPartial (.parsed stateA) [candA, candB]).previous_entries pre {}
          []).entries ∧
      (((runBuild cfgPartial (.parsed stateA) [candA, candB]).stop_reason
          = "max_files_per_run_reached" ∧
          ((runLoop cfgPartial
            (runBuild cfgPartial (.parsed stateA) [candA, candB]).previous_entries pre {}
            []).counters.files_seen : Int) ≥ cfgPartial.max_files_per_run) ∨
       ((runBuild cfgPartial (.parsed stateA) [candA, candB]).stop_reason
          = "max_seconds_reached" ∧ c.mono_now ≥ cfgPartial.deadline) ∨
       ((runBuild cfgPartial (.parsed stateA) [candA, candB]).stop_reason
          = "max_read_bytes_reached" ∧
          cfgPartial.max_read_bytes ≤
            ((runLoop cfgPartial
              (runBuild cfgPartial (.parsed stateA) [candA, candB]).previous_entries pre {}
              []).counters.bytes_read : Int))) :=
  C4_confirmed cfgPartial (.parsed stateA) [candA, candB] (by decide)

/-! Claim C9: determinism of the emitted record sequence. -/

/-- The prior entries a run loads, as a function of mode and state file
only (full mode never loads the state file). -/
def prevEntries (cfg : BuildCfg) (sf : StateFileRead) : AList :=
  if cfg.mode = Mode.incremental then (load_state sf).entries else []

theorem runBuild_prev (cfg : BuildCfg) (sf : StateFileRead) (cs : List Candidate) :
    (runBuild cfg sf cs).previous_entries = prevEntries cfg sf := by
  simp only [runBuild, prevEntries]
  by_cases h : cfg.mode = Mode.incremental
  · simp [h]
  · simp [h]

/-- Probe bytes the loop must still have available when it reaches a
candidate so that its content probe (if any) is never truncated:
0 when the candidate is classified without a probe, otherwise at least 1
and enough for the full `min(1024, len)` prefix. -/
def probeDemand (cfg : BuildCfg) (prev : AList) (c : Candidate) : Int :=
  match c.stat with
  | none => 0
  | some st =>
    if (reuseEntry cfg.mode prev c.rel_path (fpJson st)).isSome then 0
    else
      if TEXT_EXTS.contains (strToLower (pathSuffix c.rel_path)) ||
          BINARY_EXTS.contains (strToLower (pathSuffix c.rel_path)) then 0
      else max 1 (min 1024 (c.content.length : Int))

/-- The classification the loop computes for a candidate when the probe
budget does not truncate the probe (the probe reads the full
`min(1024, len)` prefix). -/
def candTextLike (c : Candidate) : Bool :=
  let ext := strToLower (pathSuffix c.rel_path)
  if TEXT_EXTS.contains ext then true
  else if BINARY_EXTS.contains ext then false
  else if c.read_err then false
  else
    let chunk := c.content.take 1024
    if chunk.isEmpty then true else !(chunk.contains 0)

/-- The entry the loop records for a candidate when no budget
interferes, as a pure function of the candidate and the prior state
(the probe reads the full `min(1024, len)` prefix). -/
def candidateEntry (cfg : BuildCfg) (prev : AList) (c : Candidate) : Option Entry :=
  match c.stat with
  | none => none
  | some st =>
    match reuseEntry cfg.mode prev c.rel_path (fpJson st) with
    | some record => some ⟨fpJson st, record⟩
    | none =>
      let ext := strToLower (pathSuffix c.rel_path)
      some ⟨fpJson st, mkRecord c.rel_path st ext (guess_language ext) (candTextLike c)⟩

/-- The entry map obtained by folding `candidateEntry` over the
candidate list. -/
def entriesFoldFrom (cfg : BuildCfg) (prev : AList) (acc : AList)
    (cs : List Candidate) : AList :=
  cs.foldl
    (fun m c =>
      match candidateEntry cfg prev c with
      | some e => pyInsert m c.rel_path e
      | none => m)
    acc

theorem take_min_eq (R : Int) (l : List Nat) (h : min 1024 (l.length : Int) ≤ R) :
    l.take (min 1024 R).toNat = l.take 1024 := by
  by_cases hl : (l.length : Int) ≤ 1024
  · have hminl : min 1024 (l.length : Int) = (l.length : Int) := min_eq_right hl
    rw [hminl] at h
    have h1 : (l.length : Int) ≤ min 1024 R := le_min hl h
    have h2 : l.length ≤ (min 1024 R).toNat := by
      have := Int.toNat_le_toNat h1
      simpa using this
    rw [List.take_of_length_le h2, List.take_of_length_le (by exact_mod_cast hl)]
  · push_neg at hl
    have h1 : min 1024 (l.length : Int) = 1024 := min_eq_left (le_of_lt hl)
    rw [h1] at h
    have h2 : min 1024 R = 1024 := min_eq_left h
    rw [h2]
    rfl

theorem is_probably_text_ample (c : Candidate) (cnt : Counters) (mrb : Int)
    (hb : max 1 (min 1024 (c.content.length : Int)) ≤ mrb - (cnt.bytes_read : Int)) :
    is_probably_text c cnt mrb =
      (if c.read_err then
        (false, false, { cnt with files_unreadable := cnt.files_unreadable + 1 })
      else
        ((if (c.content.take 1024).isEmpty then true else !((c.content.take 1024).contains 0)),
          false,
          { cnt with bytes_read := cnt.bytes_read + (c.content.take 1024).length })) := by
  have h0 : ¬ (mrb - (cnt.bytes_read : Int) ≤ 0) := by
    have : (1 : Int) ≤ max 1 (min 1024 (c.content.length : Int)) := le_max_left _ _
    omega
  simp only [is_probably_text]
  rw [if_neg h0]
  by_cases hr : c.read_err = true
  · rw [if_pos hr, if_pos hr]
  · rw [if_neg hr, if_neg hr]
    have hchunk : c.content.take (min 1024 (mrb - (cnt.bytes_read : Int))).toNat =
        c.content.take 1024 :=
      take_min_eq _ _ (le_trans (le_max_right _ _) hb)
    rw [hchunk]
    by_cases he : (c.content.take 1024).isEmpty = true
    · rw [if_pos he, if_pos he]
    · rw [if_neg he, if_neg he]
      cases hz : (c.content.take 1024).contains 0 with
      | true => rfl
      | false => rfl

theorem triple_fst (a b : Bool) (x : Counters) : ((a, b, x) : Bool × Bool × Counters).1 = a :=
  rfl

theorem triple_snd_fst (a b : Bool) (x : Counters) :
    ((a, b, x) : Bool × Bool × Counters).2.1 = b := rfl

theorem triple_snd_snd (a b : Bool) (x : Counters) :
    ((a, b, x) : Bool × Bool × Counters).2.2 = x := rfl

theorem computeStep_ample (cfg : BuildCfg) (b : Bool) (c : Candidate) (st : FileStat)
    (cnt : Counters) (acc : AList)
    (hb : (if TEXT_EXTS.contains (strToLower (pathSuffix c.rel_path)) ||
            BINARY_EXTS.contains (strToLower (pathSuffix c.rel_path)) then 0
           else max 1 (min 1024 (c.content.length : Int)))
          ≤ cfg.max_read_bytes - (cnt.bytes_read : Int)) :
    ∃ cnt2 : Counters,
      computeStep cfg b c st cnt acc =
        some (cnt2, pyInsert acc c.rel_path
          ⟨fpJson st, mkRecord c.rel_path st (strToLower (pathSuffix c.rel_path))
            (guess_language (strToLower (pathSuffix c.rel_path))) (candTextLike c)⟩) ∧
      cnt2.files_seen = cnt.files_seen ∧
      (cnt2.bytes_read : Int) ≤ (cnt.bytes_read : Int) +
        (if TEXT_EXTS.contains (strToLower (pathSuffix c.rel_path)) ||
            BINARY_EXTS.contains (strToLower (pathSuffix c.rel_path)) then 0
         else max 1 (min 1024 (c.content.length : Int))) := by
  by_cases htx : TEXT_EXTS.contains (strToLower (pathSuffix c.rel_path)) = true
  · refine ⟨if b then { cnt with files_updated := cnt.files_updated + 1 }
      else { cnt with files_indexed := cnt.files_indexed + 1 }, ?_, ?_, ?_⟩
    · simp only [computeStep, classify, if_pos htx]
      rw [show candTextLike c = true by simp only [candTextLike]; rw [if_pos htx]]
    · split_ifs <;> rfl
    · have hor : (TEXT_EXTS.contains (strToLower (pathSuffix c.rel_path)) ||
          BINARY_EXTS.contains (strToLower (pathSuffix c.rel_path))) = true := by
        rw [htx, Bool.true_or]
      rw [if_pos hor]
      split_ifs <;> simp
  · have htx' : TEXT_EXTS.contains (strToLower (pathSuffix c.rel_path)) = false :=
      bool_eq_false htx
    by_cases hbn : BINARY_EXTS.contains (strToLower (pathSuffix c.rel_path)) = true
    · refine ⟨if b then { cnt with files_updated := cnt.files_updated + 1 }
        else { cnt with files_indexed := cnt.files_indexed + 1 }, ?_, ?_, ?_⟩
      · simp only [computeStep, classify, if_neg htx, if_pos hbn]
        rw [show candTextLike c = false by
          simp only [candTextLike]; rw [if_neg htx, if_pos hbn]]
      · split_ifs <;> rfl
      · have hor : (TEXT_EXTS.contains (strToLower (pathSuffix c.rel_path)) ||
            BINARY_EXTS.contains (strToLower (pathSuffix c.rel_path))) = true := by
          rw [htx', Bool.false_or]
          exact hbn
        rw [if_pos hor]
        split_ifs <;> simp
    · have hbn' : BINARY_EXTS.contains (strToLower (pathSuffix c.rel_path)) = false :=
        bool_eq_false hbn
      have hcond : ¬ ((TEXT_EXTS.contains (strToLower (pathSuffix c.rel_path)) ||
          BINARY_EXTS.contains (strToLower (pathSuffix c.rel_path))) = true) := by
        rw [htx', hbn', Bool.false_or]
        exact Bool.false_ne_true
      have hb' : max 1 (min 1024 (c.content.length : Int)) ≤
          cfg.max_read_bytes - (cnt.bytes_read : Int) := by
        rw [if_neg hcond] at hb
        exact hb
      have hip := is_probably_text_ample c cnt cfg.max_read_bytes hb'
      by_cases hr : c.read_err = true
      · rw [if_pos hr] at hip
        refine ⟨if b then { cnt with
              files_unreadable := cnt.files_unreadable + 1
              files_updated := cnt.files_updated + 1 }
          else { cnt with
              files_unreadable := cnt.files_unreadable + 1
              files_indexed := cnt.files_indexed + 1 }, ?_, ?_, ?_⟩
        · simp only [computeStep, classify, if_neg htx, if_neg hbn, hip,
            triple_fst, triple_snd_fst, triple_snd_snd]
          rw [if_neg Bool.false_ne_true]
          rw [show candTextLike c = false by
            simp only [candTextLike]; rw [if_neg htx, if_neg hbn, if_pos hr]]
        · split_ifs <;> rfl
        · rw [if_neg hcond]
          have h1 : (1 : Int) ≤ max 1 (min 1024 (c.content.length : Int)) := le_max_left _ _
          split_ifs <;> simp
      · rw [if_neg hr] at hip
        have htl : candTextLike c =
            (if (c.content.take 1024).isEmpty then true
             else !((c.content.take 1024).contains 0)) := by
          simp only [candTextLike]
          rw [if_neg htx, if_neg hbn, if_neg hr]
        have hlen : ((c.content.take 1024).length : Int) ≤
            max 1 (min 1024 (c.content.length : Int)) := by
          rw [List.length_take]
          have hc : ((min 1024 c.content.length : Nat) : Int) =
              min 1024 (c.content.length : Int) := by
            push_cast
            rfl
          rw [hc]
          exact le_max_right _ _
        refine ⟨if b then { cnt with
              bytes_read := cnt.bytes_read + (c.content.take 1024).length
              files_updated := cnt.files_updated + 1 }
          else { cnt with
              bytes_read := cnt.bytes_read + (c.content.take 1024).length
              files_indexed := cnt.files_indexed + 1 }, ?_, ?_, ?_⟩
        · simp only [computeStep, classify, if_neg htx, if_neg hbn, hip,
            triple_fst, triple_snd_fst, triple_snd_snd]
          rw [if_neg Bool.false_ne_true]
          rw [htl]
        · split_ifs <;> rfl
        · rw [if_neg hcond]
          split_ifs <;> simp

theorem probeDemand_nonneg (cfg : BuildCfg) (prev : AList) (c : Candidate) :
    0 ≤ probeDemand cfg prev c := by
  rcases hst : c.stat with _ | st
  · simp [probeDemand, hst]
  · simp only [probeDemand, hst]
    split_ifs
    · exact le_refl 0
    · exact le_refl 0
    · exact le_trans (by omega) (le_max_left _ _)

theorem runLoop_step_ample (cfg : BuildCfg) (prev : AList) (c : Candidate)
    (rest : List Candidate) (cnt : Counters) (acc : AList)
    (h1 : ¬ ((cnt.files_seen : Int) ≥ cfg.max_files_per_run))
    (h2 : ¬ (c.mono_now ≥ cfg.deadline))
    (hb : probeDemand cfg prev c ≤ cfg.max_read_bytes - (cnt.bytes_read : Int)) :
    ∃ cnt2 : Counters,
      runLoop cfg prev (c :: rest) cnt acc =
        runLoop cfg prev rest cnt2
          (match candidateEntry cfg prev c with
           | some e => pyInsert acc c.rel_path e
           | none => acc) ∧
      cnt2.files_seen = cnt.files_seen + 1 ∧
      (cnt2.bytes_read : Int) ≤ (cnt.bytes_read : Int) + probeDemand cfg prev c := by
  rcases hst : c.stat with _ | st
  · refine ⟨{ cnt with
        files_seen := cnt.files_seen + 1
        files_unreadable := cnt.files_unreadable + 1 }, ?_, rfl, ?_⟩
    · simp only [runLoop, if_neg h1, if_neg h2, hst, candidateEntry]
    · simp [probeDemand, hst]
  · rcases hre : reuseEntry cfg.mode prev c.rel_path (fpJson st) with _ | record
    · have hbd : probeDemand cfg prev c =
          (if TEXT_EXTS.contains (strToLower (pathSuffix c.rel_path)) ||
              BINARY_EXTS.contains (strToLower (pathSuffix c.rel_path)) then 0
           else max 1 (min 1024 (c.content.length : Int))) := by
        simp [probeDemand, hst, hre]
      obtain ⟨cnt2, heq, hseen, hbytes⟩ := computeStep_ample cfg
        ((pyGet prev c.rel_path).isSome) c st
        { cnt with files_seen := cnt.files_seen + 1 } acc
        (by rw [← hbd]; exact hb)
      refine ⟨cnt2, ?_, ?_, ?_⟩
      · simp only [runLoop, if_neg h1, if_neg h2, hst, hre, heq, candidateEntry]
      · exact hseen
      · rw [hbd]
        exact hbytes
    · refine ⟨{ cnt with
          files_seen := cnt.files_seen + 1
          files_reused := cnt.files_reused + 1 }, ?_, rfl, ?_⟩
      · simp only [runLoop, if_neg h1, if_neg h2, hst, hre, candidateEntry]
      · simp [probeDemand, hst, hre]

theorem runLoop_ample (cfg : BuildCfg) (prev : AList) :
    ∀ (cs : List Candidate) (cnt : Counters) (acc : AList),
      ((cnt.files_seen : Int) + cs.length ≤ cfg.max_files_per_run) →
      (∀ c ∈ cs, c.mono_now < cfg.deadline) →
      ((cnt.bytes_read : Int) + (cs.map (probeDemand cfg prev)).sum ≤ cfg.max_read_bytes) →
      (runLoop cfg prev cs cnt acc).stopped = false ∧
      (runLoop cfg prev cs cnt acc).entries = entriesFoldFrom cfg prev acc cs := by
  intro cs
  induction cs with
  | nil =>
    intro cnt acc _ _ _
    exact ⟨rfl, rfl⟩
  | cons c rest ih =>
    intro cnt acc hcount htime hbytes
    have hlen : ((c :: rest).length : Int) = (rest.length : Int) + 1 := by
      simp
    have h1 : ¬ ((cnt.files_seen : Int) ≥ cfg.max_files_per_run) := by
      rw [hlen] at hcount
      omega
    have h2 : ¬ (c.mono_now ≥ cfg.deadline) := by
      have := htime c (List.mem_cons_self c rest)
      omega
    have hsum0 : 0 ≤ (rest.map (probeDemand cfg prev)).sum := by
      refine List.sum_nonneg ?_
      intro x hx
      obtain ⟨y, _, hxy⟩ := List.mem_map.mp hx
      rw [← hxy]
      exact probeDemand_nonneg cfg prev y
    have hcons : ((c :: rest).map (probeDemand cfg prev)).sum =
        probeDemand cfg prev c + (rest.map (probeDemand cfg prev)).sum := by
      simp
    rw [hcons] at hbytes
    have hb : probeDemand cfg prev c ≤ cfg.max_read_bytes - (cnt.bytes_read : Int) := by
      omega
    obtain ⟨cnt2, heq, hseen, hbytes2⟩ := runLoop_step_ample cfg prev c rest cnt acc h1 h2 hb
    have ihres := ih cnt2
      (match candidateEntry cfg prev c with
       | some e => pyInsert acc c.rel_path e
       | none => acc)
      (by rw [hseen] at *; rw [hlen] at hcount; push_cast at *; omega)
      (fun x hx => htime x (List.mem_cons_of_mem c hx))
      (by omega)
    rw [heq]
    exact ⟨ihres.1, by rw [ihres.2]; rfl⟩

theorem optOr_none {α : Type} (x : Option α) : optOr x none = x := by
  cases x <;> rfl

theorem find?_eq_head_filter {α : Type} (p : α → Bool) :
    ∀ l : List α, l.find? p = (l.filter p).head? := by
  intro l
  induction l with
  | nil => rfl
  | cons a t ih =>
    cases ha : p a
    · simp only [List.find?_cons, ha, List.filter_cons, if_neg Bool.false_ne_true]
      exact ih
    · simp [List.find?_cons, ha, List.filter_cons]

theorem perm_eq_of_length_le_one {α : Type} {l₁ l₂ : List α} (h : l₁.Perm l₂)
    (hl : l₁.length ≤ 1) : l₁ = l₂ := by
  cases l₁ with
  | nil => exact (List.Perm.eq_nil h.symm).symm
  | cons a t =>
    cases t with
    | nil =>
      have h2 : l₂.length = 1 := by
        rw [← h.length_eq]
        rfl
      cases l₂ with
      | nil => simp at h2
      | cons b u =>
        cases u with
        | nil =>
          have : a ∈ [b] := h.mem_iff.mp (List.mem_singleton_self a)
          simp at this
          rw [this]
        | cons x y => simp at h2
    | cons x y => simp at hl

theorem find?_perm_of_unique {α : Type} (p : α → Bool) {l₁ l₂ : List α}
    (hperm : l₁.Perm l₂) (hle : (l₁.filter p).length ≤ 1) :
    l₁.find? p = l₂.find? p := by
  rw [find?_eq_head_filter, find?_eq_head_filter,
    perm_eq_of_length_le_one (hperm.filter p) hle]

theorem filter_eq_le_one {α : Type} (f : α → String) (q : String) :
    ∀ (l : List α), ((l.map f).Nodup) →
      (l.filter (fun c => f c == q)).length ≤ 1 := by
  intro l
  induction l with
  | nil => intro _; simp
  | cons a t ih =>
    intro hnd
    simp only [List.map_cons, List.nodup_cons] at hnd
    by_cases ha : (f a == q) = true
    · have hfa : f a = q := by simpa using ha
      have ht : t.filter (fun c => f c == q) = [] := by
        rw [List.filter_eq_nil_iff]
        intro x hx hbx
        have hfx : f x = q := by simpa using hbx
        have hxa : f x = f a := hfx.trans hfa.symm
        exact hnd.1 (hxa ▸ List.mem_map_of_mem f hx)
      simp only [List.filter_cons, ha]
      simp [ht]
    · have ha' : (f a == q) = false := bool_eq_false ha
      simp only [List.filter_cons, ha']
      rw [if_neg Bool.false_ne_true]
      exact ih hnd.2

theorem entriesFold_keys (cfg : BuildCfg) (prev : AList) :
    ∀ (cs : List Candidate) (acc : AList),
      (∀ c ∈ cs, c.rel_path ∉ acc.map Prod.fst) →
      ((cs.map Candidate.rel_path).Nodup) →
      (entriesFoldFrom cfg prev acc cs).map Prod.fst =
        acc.map Prod.fst ++
          (cs.filter (fun c => (candidateEntry cfg prev c).isSome)).map Candidate.rel_path := by
  intro cs
  induction cs with
  | nil =>
    intro acc _ _
    simp [entriesFoldFrom]
  | cons c rest ih =>
    intro acc hfresh hnd
    simp only [List.map_cons, List.nodup_cons] at hnd
    rcases hce : candidateEntry cfg prev c with _ | e
    · have hstep : entriesFoldFrom cfg prev acc (c :: rest) =
          entriesFoldFrom cfg prev acc rest := by
        simp [entriesFoldFrom, hce]
      rw [hstep, ih acc (fun x hx => hfresh x (List.mem_cons_of_mem c hx)) hnd.2]
      rw [List.filter_cons_of_neg (by simp [hce])]
    · have hstep : entriesFoldFrom cfg prev acc (c :: rest) =
          entriesFoldFrom cfg prev (pyInsert acc c.rel_path e) rest := by
        simp [entriesFoldFrom, hce]
      have hkeys : (pyInsert acc c.rel_path e).map Prod.fst =
          acc.map Prod.fst ++ [c.rel_path] := by
        rw [pyInsert_fresh acc c.rel_path e (hfresh c (List.mem_cons_self c rest))]
        simp
      have hfresh2 : ∀ x ∈ rest, x.rel_path ∉ (pyInsert acc c.rel_path e).map Prod.fst := by
        intro x hx
        rw [hkeys]
        intro hmem
        rcases List.mem_append.mp hmem with hm | hm
        · exact hfresh x (List.mem_cons_of_mem c hx) hm
        · simp at hm
          exact hnd.1 (by rw [← hm]; exact List.mem_map_of_mem Candidate.rel_path hx)
      rw [hstep, ih (pyInsert acc c.rel_path e) hfresh2 hnd.2, hkeys]
      rw [List.filter_cons_of_pos (by simp [hce])]
      simp

theorem entriesFold_lookup (cfg : BuildCfg) (prev : AList) :
    ∀ (cs : List Candidate) (acc : AList) (p : String),
      (∀ c ∈ cs, c.rel_path ∉ acc.map Prod.fst) →
      ((cs.map Candidate.rel_path).Nodup) →
      pyGet (entriesFoldFrom cfg prev acc cs) p =
        optOr ((cs.find? (fun c => c.rel_path == p)).bind
            (fun c => candidateEntry cfg prev c))
          (pyGet acc p) := by
  intro cs
  induction cs with
  | nil =>
    intro acc p _ _
    simp [entriesFoldFrom, optOr]
  | cons c rest ih =>
    intro acc p hfresh hnd
    simp only [List.map_cons, List.nodup_cons] at hnd
    by_cases hp : (c.rel_path == p) = true
    · have hrel : c.rel_path = p := by simpa using hp
      have hfind : (c :: rest).find? (fun x => x.rel_path == p) = some c := by
        simp [List.find?, hp]
      have hrest : rest.find? (fun x => x.rel_path == p) = none := by
        rw [List.find?_eq_none]
        intro x hx hbx
        have hfx : x.rel_path = p := by simpa using hbx
        have hxc : x.rel_path = c.rel_path := hfx.trans hrel.symm
        exact hnd.1 (hxc ▸ List.mem_map_of_mem Candidate.rel_path hx)
      rcases hce : candidateEntry cfg prev c with _ | e
      · have hstep : entriesFoldFrom cfg prev acc (c :: rest) =
            entriesFoldFrom cfg prev acc rest := by
          simp [entriesFoldFrom, hce]
        rw [hstep, ih acc p (fun x hx => hfresh x (List.mem_cons_of_mem c hx)) hnd.2]
        rw [hfind, hrest]
        have hacc : pyGet acc p = none := by
          rw [pyGet_eq_none]
          rw [← hrel]
          exact hfresh c (List.mem_cons_self c rest)
        simp [hce, optOr, hacc]
      · have hstep : entriesFoldFrom cfg prev acc (c :: rest) =
            entriesFoldFrom cfg prev (pyInsert acc c.rel_path e) rest := by
          simp [entriesFoldFrom, hce]
        have hfresh2 : ∀ x ∈ rest, x.rel_path ∉ (pyInsert acc c.rel_path e).map Prod.fst := by
          intro x hx
          rw [pyInsert_fresh acc c.rel_path e (hfresh c (List.mem_cons_self c rest))]
          simp only [List.map_append, List.mem_append]
          intro hmem
          rcases hmem with hm | hm
          · exact hfresh x (List.mem_cons_of_mem c hx) hm
          · simp at hm
            exact hnd.1 (by rw [← hm]; exact List.mem_map_of_mem Candidate.rel_path hx)
        rw [hstep, ih (pyInsert acc c.rel_path e) p hfresh2 hnd.2]
        rw [hfind, hrest]
        have hins : pyGet (pyInsert acc c.rel_path e) p = some e := by
          rw [pyGet_pyInsert]
          rw [if_pos hrel.symm]
        simp [hce, optOr, hins]
    · have hfind : (c :: rest).find? (fun x => x.rel_path == p) =
          rest.find? (fun x => x.rel_path == p) := by
        simp [List.find?, hp]
      rcases hce : candidateEntry cfg prev c with _ | e
      · have hstep : entriesFoldFrom cfg prev acc (c :: rest) =
            entriesFoldFrom cfg prev acc rest := by
          simp [entriesFoldFrom, hce]
        rw [hstep, ih acc p (fun x hx => hfresh x (List.mem_cons_of_mem c hx)) hnd.2, hfind]
      · have hstep : entriesFoldFrom cfg prev acc (c :: rest) =
            entriesFoldFrom cfg prev (pyInsert acc c.rel_path e) rest := by
          simp [entriesFoldFrom, hce]
        have hfresh2 : ∀ x ∈ rest, x.rel_path ∉ (pyInsert acc c.rel_path e).map Prod.fst := by
          intro x hx
          rw [pyInsert_fresh acc c.rel_path e (hfresh c (List.mem_cons_self c rest))]
          simp only [List.map_append, List.mem_append]
          intro hmem
          rcases hmem with hm | hm
          · exact hfresh x (List.mem_cons_of_mem c hx) hm
          · simp at hm
            exact hnd.1 (by rw [← hm]; exact List.mem_map_of_mem Candidate.rel_path hx)
        rw [hstep, ih (pyInsert acc c.rel_path e) p hfresh2 hnd.2, hfind]
        have hins : pyGet (pyInsert acc c.rel_path e) p = pyGet acc p := by
          rw [pyGet_pyInsert]
          rw [if_neg (fun hh => hp (by rw [hh]; simp))]
        rw [hins]

theorem reuseEntry_some (mode : Mode) (prev : AList) (rel : String) (fp : Json)
    (record : Json) (h : reuseEntry mode prev rel fp = some record) :
    ∃ e0 : Entry, pyGet prev rel = some e0 ∧ record = e0.record := by
  simp only [reuseEntry] at h
  split_ifs at h with hm
  cases hold : pyGet prev rel with
  | none =>
    rw [hold] at h
    exact Option.noConfusion h
  | some e0 =>
    rw [hold] at h
    have h' : (if e0.fingerprint = fp ∧ e0.record.isObj = true
        then some e0.record else none) = some record := h
    split_ifs at h' with hc
    exact ⟨e0, rfl, (Option.some.inj h').symm⟩

theorem mkRecord_field_path (rel : String) (st : FileStat) (ext lang : String)
    (tl : Bool) : (mkRecord rel st ext lang tl).field "path" = some (Json.str rel) := rfl

theorem candidateEntry_path (cfg : BuildCfg) (prev : AList) (c : Candidate) (e : Entry)
    (hpath : ∀ p e0, pyGet prev p = some e0 → e0.record.field "path" = some (Json.str p))
    (h : candidateEntry cfg prev c = some e) :
    e.record.field "path" = some (Json.str c.rel_path) := by
  rcases hst : c.stat with _ | st
  · simp [candidateEntry, hst] at h
  · rcases hre : reuseEntry cfg.mode prev c.rel_path (fpJson st) with _ | record
    · simp only [candidateEntry, hst, hre, Option.some.injEq] at h
      rw [← h]
      exact mkRecord_field_path _ _ _ _ _
    · simp only [candidateEntry, hst, hre, Option.some.injEq] at h
      obtain ⟨e0, hold, hrec⟩ := reuseEntry_some cfg.mode prev c.rel_path (fpJson st) record hre
      rw [← h]
      simp only [hrec]
      exact hpath c.rel_path e0 hold

theorem fold_lookup (cfg : BuildCfg) (prev : AList) (cs : List Candidate)
    (hnd : (cs.map Candidate.rel_path).Nodup) (p : String) :
    pyGet (entriesFoldFrom cfg prev [] cs) p =
      (cs.find? (fun c => c.rel_path == p)).bind (fun c => candidateEntry cfg prev c) := by
  rw [entriesFold_lookup cfg prev cs [] p (by simp) hnd]
  simp only [pyGet]
  exact optOr_none _

theorem fold_lookup_path (cfg : BuildCfg) (prev : AList) (cs : List Candidate)
    (hnd : (cs.map Candidate.rel_path).Nodup)
    (hpath : ∀ p e0, pyGet prev p = some e0 → e0.record.field "path" = some (Json.str p))
    (p : String) (e : Entry)
    (h : pyGet (entriesFoldFrom cfg prev [] cs) p = some e) :
    e.record.field "path" = some (Json.str p) := by
  rw [fold_lookup cfg prev cs hnd p] at h
  rcases hf : cs.find? (fun c => c.rel_path == p) with _ | c
  · rw [hf] at h
    exact Option.noConfusion h
  · rw [hf] at h
    have hce : candidateEntry cfg prev c = some e := by simpa using h
    have hc := List.find?_some hf
    have hrel : c.rel_path = p := by simpa using hc
    have hfield := candidateEntry_path cfg prev c e hpath hce
    rw [hrel] at hfield
    exact hfield

theorem map_pathKey_filterMap (ks : List String) (g : String → Option Json)
    (hg : ∀ p r, g p = some r → pathKey r = p) :
    (ks.filterMap g).map pathKey = ks.filter (fun p => (g p).isSome) := by
  induction ks with
  | nil => rfl
  | cons p t ih =>
    cases hgp : g p with
    | none => simp [List.filterMap_cons, hgp, List.filter_cons, ih]
    | some r => simp [List.filterMap_cons, hgp, List.filter_cons, ih, hg p r hgp]

theorem runBuild_records (cfg : BuildCfg) (sf : StateFileRead) (cs : List Candidate) :
    (runBuild cfg sf cs).records = recordsOf (runBuild cfg sf cs).final_entries := by
  simp only [runBuild]

theorem filterMap_congr_fun {α β : Type} (l : List α) (f g : α → Option β)
    (h : ∀ a, f a = g a) : l.filterMap f = l.filterMap g := by
  have hfg : f = g := funext h
  rw [hfg]

theorem recordsOf_congr (m₁ m₂ : AList)
    (hk : sortedKeys m₁ = sortedKeys m₂)
    (hl : ∀ p, pyGet m₁ p = pyGet m₂ p) :
    recordsOf m₁ = recordsOf m₂ := by
  unfold recordsOf
  rw [hk]
  exact filterMap_congr_fun _ _ _ (fun p => by rw [hl p])

theorem sortedKeys_fold_eq (cfg : BuildCfg) (prev : AList) (cs₁ cs₂ : List Candidate)
    (hperm : cs₁.Perm cs₂) (hnd : (cs₁.map Candidate.rel_path).Nodup) :
    sortedKeys (entriesFoldFrom cfg prev [] cs₁) =
      sortedKeys (entriesFoldFrom cfg prev [] cs₂) := by
  have hnd₂ : (cs₂.map Candidate.rel_path).Nodup :=
    ((hperm.map Candidate.rel_path).nodup_iff).mp hnd
  have hk₁ := entriesFold_keys cfg prev cs₁ [] (by simp) hnd
  have hk₂ := entriesFold_keys cfg prev cs₂ [] (by simp) hnd₂
  simp only [List.map_nil, List.nil_append] at hk₁ hk₂
  have hknd₁ : ((cs₁.filter
      (fun c => (candidateEntry cfg prev c).isSome)).map Candidate.rel_path).Nodup :=
    List.Nodup.sublist (List.Sublist.map _ (List.filter_sublist cs₁)) hnd
  have hknd₂ : ((cs₂.filter
      (fun c => (candidateEntry cfg prev c).isSome)).map Candidate.rel_path).Nodup :=
    List.Nodup.sublist (List.Sublist.map _ (List.filter_sublist cs₂)) hnd₂
  unfold sortedKeys sortStrings
  rw [hk₁, hk₂, List.dedup_eq_self.mpr hknd₁, List.dedup_eq_self.mpr hknd₂]
  refine List.eq_of_perm_of_sorted ?_ (List.sorted_insertionSort _ _)
    (List.sorted_insertionSort _ _)
  exact (List.perm_insertionSort _ _).trans
    (((hperm.filter _).map _).trans (List.perm_insertionSort _ _).symm)

theorem fold_lookup_perm (cfg : BuildCfg) (prev : AList) (cs₁ cs₂ : List Candidate)
    (hperm : cs₁.Perm cs₂) (hnd : (cs₁.map Candidate.rel_path).Nodup) (p : String) :
    pyGet (entriesFoldFrom cfg prev [] cs₁) p =
      pyGet (entriesFoldFrom cfg prev [] cs₂) p := by
  have hnd₂ : (cs₂.map Candidate.rel_path).Nodup :=
    ((hperm.map Candidate.rel_path).nodup_iff).mp hnd
  rw [fold_lookup cfg prev cs₁ hnd p, fold_lookup cfg prev cs₂ hnd₂ p]
  rw [find?_perm_of_unique _ hperm (filter_eq_le_one Candidate.rel_path p cs₁ hnd)]

theorem recordsOf_sorted (m : AList)
    (hm : ∀ p e, pyGet m p = some e → e.record.field "path" = some (Json.str p)) :
    List.Sorted (fun a b => strLe a b = true) ((recordsOf m).map pathKey) := by
  have hgOK : ∀ p r0,
      (match pyGet m p with
       | some e => if e.record.isObj then some e.record else none
       | none => none) = some r0 → pathKey r0 = p := by
    intro p r0 hg
    rcases hpg : pyGet m p with _ | e
    · simp only [hpg] at hg
      exact Option.noConfusion hg
    · simp only [hpg] at hg
      split_ifs at hg with hobj
      have hfield := hm p e hpg
      rw [← Option.some.inj hg]
      simp [pathKey, hfield, jsonAsStr]
  have hmap := map_pathKey_filterMap (sortedKeys m)
    (fun p =>
      match pyGet m p with
      | some e => if e.record.isObj then some e.record else none
      | none => none) hgOK
  unfold recordsOf
  rw [hmap]
  have h1 : List.Sorted (fun a b => strLe a b = true) (sortedKeys m) := by
    unfold sortedKeys sortStrings
    exact List.sorted_insertionSort _ _
  exact List.Pairwise.filter _ h1

theorem runBuild_ok_of_not_stopped (cfg : BuildCfg) (sf : StateFileRead)
    (cs : List Candidate)
    (h : (runLoop cfg (prevEntries cfg sf) cs {} []).stopped = false) :
    (runBuild cfg sf cs).status = "ok" := by
  rcases runBuild_status cfg sf cs with hok | hpart
  · exact hok
  · have hs := (runBuild_stop_iff cfg sf cs).1.mp hpart
    rw [runBuild_prev cfg sf cs, h] at hs
    exact absurd hs (by decide)

/-- C9 counterexample: two completed full builds over the same two
candidate files, in the two traversal orders, emit different record
sequences, because the shared probe-byte budget truncates the content
probe of whichever file is scanned second; this refutes the claim that
the emitted record sequence is identical regardless of traversal
order. -/
theorem C9_counterexample :
    (runBuild ⟨Mode.full, 100, 10, 3, 0⟩ .missing
      [⟨"f", 0, some ⟨2, 10, 1, 7⟩, false, [65, 0]⟩,
       ⟨"g", 1, some ⟨2, 11, 1, 8⟩, false, [66, 66]⟩]).status = "ok" ∧
    (runBuild ⟨Mode.full, 100, 10, 3, 0⟩ .missing
      [⟨"g", 1, some ⟨2, 11, 1, 8⟩, false, [66, 66]⟩,
       ⟨"f", 0, some ⟨2, 10, 1, 7⟩, false, [65, 0]⟩]).status = "ok" ∧
    ([⟨"g", 1, some ⟨2, 11, 1, 8⟩, false, [66, 66]⟩,
      ⟨"f", 0, some ⟨2, 10, 1, 7⟩, false, [65, 0]⟩] : List Candidate).Perm
      [⟨"f", 0, some ⟨2, 10, 1, 7⟩, false, [65, 0]⟩,
       ⟨"g", 1, some ⟨2, 11, 1, 8⟩, false, [66, 66]⟩] ∧
    (runBuild ⟨Mode.full, 100, 10, 3, 0⟩ .missing
      [⟨"f", 0, some ⟨2, 10, 1, 7⟩, false, [65, 0]⟩,
       ⟨"g", 1, some ⟨2, 11, 1, 8⟩, false, [66, 66]⟩]).records ≠
    (runBuild ⟨Mode.full, 100, 10, 3, 0⟩ .missing
      [⟨"g", 1, some ⟨2, 11, 1, 8⟩, false, [66, 66]⟩,
       ⟨"f", 0, some ⟨2, 10, 1, 7⟩, false, [65, 0]⟩]).records := by
  decide

/-- C9 (amended): the emitted record sequence is always produced in
ascending path order; and it is identical regardless of the order in
which the traversal yields the files provided no budget interferes:
distinct relative paths, file count within the file budget, every
per-file clock reading before the deadline, and a probe-byte budget
covering every content probe in full. Without the probe-byte condition
a completed run's classifications can differ between traversal orders
(see the counterexample). -/
theorem C9_amended (cfg : BuildCfg) (sf : StateFileRead) (cs₁ cs₂ : List Candidate)
    (hperm : cs₁.Perm cs₂)
    (hnd : (cs₁.map Candidate.rel_path).Nodup)
    (hcount : (cs₁.length : Int) ≤ cfg.max_files_per_run)
    (htime : ∀ c ∈ cs₁, c.mono_now < cfg.deadline)
    (hbytes : (cs₁.map (probeDemand cfg (prevEntries cfg sf))).sum ≤ cfg.max_read_bytes)
    (hpath : ∀ p e0, pyGet (prevEntries cfg sf) p = some e0 →
      e0.record.field "path" = some (Json.str p)) :
    (runBuild cfg sf cs₁).status = "ok" ∧
    (runBuild cfg sf cs₂).status = "ok" ∧
    (runBuild cfg sf cs₁).records = (runBuild cfg sf cs₂).records ∧
    List.Sorted (fun a b => strLe a b = true)
      ((runBuild cfg sf cs₁).records.map pathKey) ∧
    groupedByTopLevel (runBuild cfg sf cs₁).records =
      groupedByTopLevel (runBuild cfg sf cs₂).records := by
  have hnd₂ : (cs₂.map Candidate.rel_path).Nodup :=
    ((hperm.map Candidate.rel_path).nodup_iff).mp hnd
  have hlen2 : cs₂.length = cs₁.length := hperm.length_eq.symm
  have hzero : ((({} : Counters).files_seen : Int) = 0) := rfl
  have hzerob : ((({} : Counters).bytes_read : Int) = 0) := rfl
  have hample₁ := runLoop_ample cfg (prevEntries cfg sf) cs₁ {} []
    (by rw [hzero]; omega)
    htime
    (by rw [hzerob]; omega)
  have hsum2 : (cs₂.map (probeDemand cfg (prevEntries cfg sf))).sum =
      (cs₁.map (probeDemand cfg (prevEntries cfg sf))).sum :=
    ((hperm.map (probeDemand cfg (prevEntries cfg sf))).sum_eq).symm
  have hample₂ := runLoop_ample cfg (prevEntries cfg sf) cs₂ {} []
    (by rw [hzero, hlen2]; omega)
    (fun c hc => htime c (hperm.mem_iff.mpr hc))
    (by rw [hzerob, hsum2]; omega)
  obtain ⟨hstop₁, hent₁⟩ := hample₁
  obtain ⟨hstop₂, hent₂⟩ := hample₂
  have hok₁ := runBuild_ok_of_not_stopped cfg sf cs₁ hstop₁
  have hok₂ := runBuild_ok_of_not_stopped cfg sf cs₂ hstop₂
  have hrec : ∀ (cs : List Candidate),
      (runBuild cfg sf cs).status = "ok" →
      (runLoop cfg (prevEntries cfg sf) cs {} []).entries =
        entriesFoldFrom cfg (prevEntries cfg sf) [] cs →
      (runBuild cfg sf cs).records =
        recordsOf (entriesFoldFrom cfg (prevEntries cfg sf) [] cs) := by
    intro cs hok hent
    rcases runBuild_cases cfg sf cs with ⟨hst, _, _⟩ | ⟨_, hfin, _⟩
    · rw [hok] at hst
      exact absurd hst (by decide)
    · rw [runBuild_records, hfin, runBuild_new, runBuild_prev, hent]
  have hrec₁ := hrec cs₁ hok₁ hent₁
  have hrec₂ := hrec cs₂ hok₂ hent₂
  have hreq : recordsOf (entriesFoldFrom cfg (prevEntries cfg sf) [] cs₁) =
      recordsOf (entriesFoldFrom cfg (prevEntries cfg sf) [] cs₂) :=
    recordsOf_congr _ _
      (sortedKeys_fold_eq cfg (prevEntries cfg sf) cs₁ cs₂ hperm hnd)
      (fold_lookup_perm cfg (prevEntries cfg sf) cs₁ cs₂ hperm hnd)
  have hsorted : List.Sorted (fun a b => strLe a b = true)
      ((recordsOf (entriesFoldFrom cfg (prevEntries cfg sf) [] cs₁)).map pathKey) :=
    recordsOf_sorted _ (fun p e h => fold_lookup_path cfg (prevEntries cfg sf) cs₁ hnd
      hpath p e h)
  refine ⟨hok₁, hok₂, ?_, ?_, ?_⟩
  · rw [hrec₁, hrec₂, hreq]
  · rw [hrec₁]
    exact hsorted
  · rw [hrec₁, hrec₂, hreq]

/-- C9 witness: the amended theorem applied to two table-classified
files scanned in both orders under ample budgets. -/
theorem C9_witness :
    (runBuild ⟨Mode.full, 100, 10, 1000, 0⟩ .missing [candA, candB]).status = "ok" ∧
    (runBuild ⟨Mode.full, 100, 10, 1000, 0⟩ .missing [candB, candA]).status = "ok" ∧
    (runBuild ⟨Mode.full, 100, 10, 1000, 0⟩ .missing [candA, candB]).records =
      (runBuild ⟨Mode.full, 100, 10, 1000, 0⟩ .missing [candB, candA]).records ∧
    List.Sorted (fun a b => strLe a b = true)
      ((runBuild ⟨Mode.full, 100, 10, 1000, 0⟩ .missing [candA, candB]).records.map pathKey) ∧
    groupedByTopLevel (runBuild ⟨Mode.full, 100, 10, 1000, 0⟩ .missing
        [candA, candB]).records =
      groupedByTopLevel (runBuild ⟨Mode.full, 100, 10, 1000, 0⟩ .missing
        [candB, candA]).records :=
  C9_amended ⟨Mode.full, 100, 10, 1000, 0⟩ .missing [candA, candB] [candB, candA]
    (by decide) (by decide) (by decide)
    (by
      intro c hc
      rcases List.mem_cons.mp hc with h | h
      · rw [h]; decide
      · rcases List.mem_cons.mp h with h2 | h2
        · rw [h2]; decide
        · simp at h2)
    (by decide)
    (by
      intro p e0 h
      simp [prevEntries, pyGet] at h)

end SafeMassIndex
